import Mathlib

/-!
TongaMarketPlace: the cart page (`scripts/scriptCart.js`) and the cart helpers of
the product page (`scripts/scriptProduct.js`).

A shallow embedding of the cart ledger: the module globals `PRODUCTS`, `CART`,
`SAVED`, `APPLIED_PROMO`, the two `localStorage` keys and the totals that
`renderCart` writes into the page become one explicit `State`; every click
handler becomes a function `State → Outcome`, which records whether a
`TypeError` escaped the handler and the state it left behind.

Modelling conventions.
* Prices and quantities are JavaScript numbers that hold integers; they are
  `Int` here. Sums and products of integers are exact in IEEE doubles below
  `2^53`, so `+`, `-`, `*` on them are the integer operations.
* The one place where the code leaves the integers is
  `Math.round(subtotal * (APPLIED_PROMO.value / 100))`. The quotient and the
  product are rounded to doubles there, and the model rounds them the same way
  (`divDouble`, `mulDouble`, round to nearest, ties to even, 53 significant bits).
* `String(x.id) === String(it.productId)` compares the string forms; an id is
  kept as that string.
* An array entry is `some item` for an object and `none` for `undefined`/`null`
  (what `[][0]` yields and what `JSON.stringify` turns it into).
* The DOM elements the script looks up are all present.
-/

namespace TongaMarket

/-! ## Numbers -/

/-- The JS expression `x || d` on a number `x` that holds an integer: `0` is falsy. -/
def orNum (x d : Int) : Int := if x = 0 then d else x

/-- A finite value `num / 2^scale`; every finite double is of this form. -/
structure Dyadic where
  num : Int
  scale : Nat
deriving DecidableEq, Repr

/-- Halve `n` until it is below 2, at most `fuel` times, counting the halvings. -/
def log2Aux : Nat → Nat → Nat
  | 0, _ => 0
  | fuel + 1, n => if n < 2 then 0 else log2Aux fuel (n / 2) + 1

/-- The position of the highest set bit of `n`, that is `⌊log₂ n⌋`; `0` for `n = 0`. -/
def floorLog2 (n : Nat) : Nat := log2Aux n n

/-- Round a natural number to 53 significant bits, to nearest, ties to even. -/
def roundSig53 (n : Nat) : Nat :=
  if n < 2 ^ 53 then n
  else
    let s := floorLog2 n - 52
    let q := n / 2 ^ s
    let r := n % 2 ^ s
    let half := 2 ^ (s - 1)
    if r < half then q * 2 ^ s
    else if half < r then (q + 1) * 2 ^ s
    else if q % 2 = 0 then q * 2 ^ s
    else (q + 1) * 2 ^ s

/-- The integer nearest to `n / d`, ties to even. -/
def roundDiv (n d : Nat) : Nat :=
  let q := n / d
  let r := n % d
  if 2 * r < d then q
  else if d < 2 * r then q + 1
  else if q % 2 = 0 then q
  else q + 1

/-- The double `a / b` for naturals `a`, `0 < b`: numerator and denominator are
scaled so that the quotient has 53 or 54 bits, and the quotient is rounded to
53 bits. -/
def divDouble (a b : Nat) : Dyadic :=
  if a = 0 then ⟨0, 0⟩
  else
    let la := floorLog2 a
    let lb := floorLog2 b
    let up := (53 + lb) - la
    let down := la - (53 + lb)
    let A := a * 2 ^ up
    let B := b * 2 ^ down
    if A / B < 2 ^ 53 then ⟨(roundDiv A B * 2 ^ down : Nat), up⟩
    else ⟨(roundDiv A (2 * B) * 2 ^ (down + 1) : Nat), up⟩

/-- The double `s * c` for an integer `s` (exact as a double) and a double `c`. -/
def mulDouble (s : Int) (c : Dyadic) : Dyadic :=
  ⟨Int.sign s * Int.sign c.num * (roundSig53 (s.natAbs * c.num.natAbs) : Nat), c.scale⟩

/-- `Math.round(x)`: the integer nearest to `x`, ties towards `+∞`, that is `⌊x + 1/2⌋`. -/
def mathRound (x : Dyadic) : Int :=
  (2 * x.num + 2 ^ x.scale) / 2 ^ (x.scale + 1)

/-! ## Data model -/

/-- A record of the catalog (`PRODUCTS`). `price` is `none` when the field is
absent or not a number. -/
structure Product where
  id : String
  title : String
  price : Option Int
  image : String := ""
deriving DecidableEq, Repr

/-- A line of the cart or of the saved list: `{ productId, qty }`; the product
page also stores a copy of the title, the price and the first image. -/
structure CartItem where
  productId : String
  qty : Int
  title : Option String := none
  price : Option Int := none
  image : Option String := none
deriving DecidableEq, Repr

/-- An array slot: an item object, or `none` for `undefined`/`null`. -/
abbrev Entry := Option CartItem

/-- A value of `CART` or `SAVED`: an array, or any other JSON value (`null`, a
number, a string, a plain object). -/
inductive JsList where
  | arr (entries : List Entry)
  | other
deriving DecidableEq, Repr

/-- What `localStorage.getItem(key)` holds: nothing (`null`, or the empty string,
which is falsy too), a text `JSON.parse` throws on, or the text of a JSON value. -/
inductive Stored where
  | absent
  | unparsable
  | json (v : JsList)
deriving DecidableEq, Repr

inductive PromoType where
  | percent
  | shipping
deriving DecidableEq, Repr

structure Promo where
  type : PromoType
  value : Nat
deriving DecidableEq, Repr

/-- The four numbers `renderCart` writes into the summary box. -/
structure Totals where
  subtotal : Int
  discount : Int
  shipping : Int
  total : Int
deriving DecidableEq, Repr

inductive JsError where
  | typeError
deriving DecidableEq, Repr

/-- A number handed to `addToCart`: an integer or `NaN`. -/
inductive JsNum where
  | int (n : Int)
  | nan
deriving DecidableEq, Repr

structure State where
  products : List Product
  cart : JsList
  saved : JsList
  promo : Option Promo
  storedCart : Stored
  storedSaved : Stored
  promoMsg : String
  shown : Option Totals
deriving DecidableEq, Repr

/-- How a handler ends: it ran to its end, or a `TypeError` escaped it; either
way the globals and the storage are left as the state says. -/
inductive Outcome where
  | done (st : State)
  | threw (st : State)
deriving DecidableEq, Repr

/-- Run `f` next unless an exception has already escaped. -/
def Outcome.andThen (o : Outcome) (f : State → Outcome) : Outcome :=
  match o with
  | .done st => f st
  | .threw st => .threw st

/-- The state a handler leaves behind. -/
def Outcome.state : Outcome → State
  | .done st => st
  | .threw st => st

/-- `let SHIPPING_FEE = 2500;` -/
def SHIPPING_FEE : Int := 2500

/-- `PROMOS[code]` -/
def PROMOS (code : String) : Option Promo :=
  if code = "TONGA10" then some ⟨.percent, 10⟩
  else if code = "FREEDEL" then some ⟨.shipping, 1⟩
  else none

/-! ## Storage -/

/-- `JSON.parse(localStorage.getItem(KEY) || "[]")` inside `try … catch { [] }`. -/
def loadKey : Stored → JsList
  | .absent => .arr []
  | .unparsable => .arr []
  | .json v => v

/-- `readCart()` -/
def readCart (st : State) : State :=
  { st with cart := loadKey st.storedCart, saved := loadKey st.storedSaved }

/-- Whether `CART.reduce((s,i)=>s + (Number(i.qty)||0), 0)` of `updateBadge` runs
through: reading `i.qty` of an `undefined` entry throws, and so does `reduce`
on a value that is not an array. -/
def badgeComputes : JsList → Bool
  | .arr entries => entries.all Option.isSome
  | .other => false

/-- `writeCart()`: stores the cart, then `updateBadge()`. -/
def writeCart (st : State) : Outcome :=
  let st1 := { st with storedCart := .json st.cart }
  if badgeComputes st1.cart then .done st1 else .threw st1

/-- `writeSaved()` -/
def writeSaved (st : State) : State :=
  { st with storedSaved := .json st.saved }

/-! ## Pricing -/

/-- `PRODUCTS.find(x => String(x.id) === String(pid))` -/
def findProduct (products : List Product) (pid : String) : Option Product :=
  products.find? (fun x => x.id == pid)

/-- `Number(p.price) || 0` for `p = PRODUCTS.find(…) || {}` -/
def priceOf (products : List Product) (pid : String) : Int :=
  match findProduct products pid with
  | some p =>
    match p.price with
    | some n => orNum n 0
    | none => 0
  | none => 0

/-- The `CART.forEach` loop of `renderCart`, as far as `subtotal` goes; reading
`it.productId` of an `undefined` entry throws. -/
def subtotalLoop (products : List Product) : List Entry → Int → Except JsError Int
  | [], acc => .ok acc
  | none :: _, _ => .error .typeError
  | some it :: rest, acc =>
    subtotalLoop products rest (acc + priceOf products it.productId * orNum it.qty 0)

/-- `Math.round(subtotal * (APPLIED_PROMO.value/100))` -/
def percentDiscount (subtotal : Int) (value : Nat) : Int :=
  mathRound (mulDouble subtotal (divDouble value 100))

/-- The `// totals` block of `renderCart`. -/
def computeTotals (promo : Option Promo) (subtotal : Int) : Totals :=
  let discount : Int :=
    match promo with
    | some p => if p.type = .percent then percentDiscount subtotal p.value else 0
    | none => 0
  let shippingFeeEffective : Int :=
    match promo with
    | some p => if p.type = .shipping then 0 else SHIPPING_FEE
    | none => SHIPPING_FEE
  { subtotal := subtotal, discount := discount, shipping := shippingFeeEffective,
    total := subtotal - discount + shippingFeeEffective }

/-- `renderCart()`: re-reads both lists from storage, sums the rows and shows the totals. -/
def renderCart (st : State) : Outcome :=
  let st1 := readCart st
  match st1.cart with
  | .other => .threw st1
  | .arr entries =>
    match subtotalLoop st1.products entries 0 with
    | .error _ => .threw st1
    | .ok subtotal => .done { st1 with shown := some (computeTotals st1.promo subtotal) }

/-! ## Promo codes -/

/-- White space and line terminators, which `String.prototype.trim` strips. -/
def isJsSpace (c : Char) : Bool :=
  let n := c.toNat
  n = 9 || n = 10 || n = 11 || n = 12 || n = 13 || n = 32 || n = 160 || n = 5760
    || (8192 ≤ n && n ≤ 8202) || n = 8232 || n = 8233 || n = 8239 || n = 8287
    || n = 12288 || n = 65279

/-- `s.trim()` on the list of characters. -/
def jsTrim (cs : List Char) : List Char :=
  ((cs.dropWhile isJsSpace).reverse.dropWhile isJsSpace).reverse

/-- `(promoInput.value || "").trim().toUpperCase()`; letters outside ASCII are
left as they are. -/
def normalizeCode (input : String) : String :=
  String.mk ((jsTrim input.data).map Char.toUpper)

/-- `applyPromo.onclick` with `promoInput.value = input`. -/
def applyPromoClick (st : State) (input : String) : Outcome :=
  let code := normalizeCode input
  if code = "" then .done st
  else
    match PROMOS code with
    | none => .done { st with promoMsg := "Code invalide." }
    | some promo => renderCart { st with promo := some promo, promoMsg := "Code appliqué." }

/-! ## Arrays -/

/-- `a[i]` for a number `i` that holds an integer: `none` is `undefined`. -/
def entryAt (a : List Entry) (i : Int) : Option Entry :=
  if 0 ≤ i then a[i.toNat]? else none

/-- `a.splice(start, 1)`: the removed elements and the array that is left.
A negative `start` counts from the end; `start` is clamped to `0 … length`. -/
def splice1 {α : Type} (a : List α) (start : Int) : List α × List α :=
  let len : Int := a.length
  let actualStart : Nat := (if start < 0 then max (len + start) 0 else min start len).toNat
  let deleteCount : Nat := min 1 (a.length - actualStart)
  ((a.drop actualStart).take deleteCount,
   a.take actualStart ++ a.drop (actualStart + deleteCount))

/-- `removed[0]` -/
def firstOf (removed : List Entry) : Entry :=
  match removed with
  | [] => none
  | e :: _ => e

/-! ## Handlers of the cart table -/

/-- `CART[idx].qty = v`: throws when `CART[idx]` is `undefined`. -/
def setQtyAt (st : State) (idx : Int) (v : Int) : Outcome :=
  match st.cart with
  | .other => .threw st
  | .arr entries =>
    match entryAt entries idx with
    | some (some it) =>
      .done { st with cart := .arr (entries.set idx.toNat (some { it with qty := v })) }
    | _ => .threw st

/-- `Number(input.value || 1)`: the field of a number input is empty (`none`) or
holds a number. -/
def inputNumber (value : Option Int) : Int :=
  match value with
  | none => 1
  | some n => n

/-- `input.onchange` of row `idx`. -/
def qtyChange (st : State) (idx : Int) (value : Option Int) : Outcome :=
  let v := max 1 (inputNumber value)
  ((setQtyAt st idx v).andThen writeCart).andThen renderCart

/-- `minus.onclick` of row `idx`. -/
def qtyMinus (st : State) (idx : Int) (value : Option Int) : Outcome :=
  let v := max 1 (inputNumber value - 1)
  ((setQtyAt st idx v).andThen writeCart).andThen renderCart

/-- `plus.onclick` of row `idx`. -/
def qtyPlus (st : State) (idx : Int) (value : Option Int) : Outcome :=
  let v := inputNumber value + 1
  ((setQtyAt st idx v).andThen writeCart).andThen renderCart

/-- The `.remove` button of row `i`. -/
def removeClick (st : State) (i : Int) : Outcome :=
  match st.cart with
  | .other => .threw st
  | .arr entries =>
    (writeCart { st with cart := .arr (splice1 entries i).2 }).andThen renderCart

/-- The `.save` button of row `i`. (`renderSaved` catches its own exceptions
and changes no global.) -/
def saveClick (st : State) (i : Int) : Outcome :=
  match st.cart with
  | .other => .threw st
  | .arr entries =>
    let item := firstOf (splice1 entries i).1
    let st1 := { st with cart := .arr (splice1 entries i).2 }
    match st1.saved with
    | .other => .threw st1
    | .arr saved =>
      let st2 := { st1 with saved := .arr (saved ++ [item]) }
      ((writeCart st2).andThen (fun s => .done (writeSaved s))).andThen renderCart

/-! ## Handlers of the saved list -/

/-- The `.saved-add` button of saved row `i`. -/
def savedAddClick (st : State) (i : Int) : Outcome :=
  match st.saved with
  | .other => .threw st
  | .arr saved =>
    let it := firstOf (splice1 saved i).1
    let st1 := { st with saved := .arr (splice1 saved i).2 }
    match st1.cart with
    | .other => .threw st1
    | .arr entries =>
      let st2 := { st1 with cart := .arr (entries ++ [it]) }
      ((writeCart st2).andThen (fun s => .done (writeSaved s))).andThen renderCart

/-- The `.saved-remove` button of saved row `i`. -/
def savedRemoveClick (st : State) (i : Int) : Outcome :=
  match st.saved with
  | .other => .threw st
  | .arr saved => .done (writeSaved { st with saved := .arr (splice1 saved i).2 })

/-! ## Adding to the cart -/

/-- `a.find(c => String(c.productId) === String(pid))` and `a.findIndex(…)`:
the position of the first match; reading `c.productId` of an `undefined` entry
that is reached before a match throws. -/
def findIndexOf (pid : String) : List Entry → Except JsError (Option Nat)
  | [] => .ok none
  | none :: _ => .error .typeError
  | some c :: rest =>
    if c.productId = pid then .ok (some 0)
    else
      match findIndexOf pid rest with
      | .error e => .error e
      | .ok none => .ok none
      | .ok (some k) => .ok (some (k + 1))

/-- `a[k].qty = f(a[k].qty)` -/
def modifyQtyAt (f : Int → Int) : List Entry → Nat → List Entry
  | [], _ => []
  | e :: rest, 0 => e.map (fun c => { c with qty := f c.qty }) :: rest
  | e :: rest, k + 1 => e :: modifyQtyAt f rest k

/-- The `Ajouter` button of an upsell tile, `data-id = id`. -/
def upsellAddClick (st : State) (id : String) : Outcome :=
  match st.cart with
  | .other => .threw st
  | .arr entries =>
    match findIndexOf id entries with
    | .error _ => .threw st
    | .ok (some k) =>
      (writeCart { st with cart := .arr (modifyQtyAt (fun q => orNum q 0 + 1) entries k) }).andThen
        renderCart
    | .ok none =>
      (writeCart { st with cart := .arr (entries ++ [some { productId := id, qty := 1 }]) }).andThen
        renderCart

/-- `Number(qty || 1)` -/
def numberOfOrOne : JsNum → Int
  | .int n => if n = 0 then 1 else n
  | .nan => 1

/-- `Number(qty) || 1` -/
def numberOrOne : JsNum → Int
  | .int n => orNum n 1
  | .nan => 1

/-- How `addToCart` of the product page ends: the product is unknown (an alert,
nothing else), the cart was stored, or a `TypeError` escaped with the storage
as given. -/
inductive AddResult where
  | notFound
  | stored (cartKey : Stored)
  | threw (cartKey : Stored)
deriving DecidableEq, Repr

/-- `saveCart(cart)`: stores the cart, then `updateCartCount()` sums the stored
quantities. -/
def saveCart (cart : List Entry) : AddResult :=
  if badgeComputes (.arr cart) then .stored (.json (.arr cart)) else .threw (.json (.arr cart))

/-- `addToCart(productId, qty = 1)` of `scriptProduct.js`; `cartKey` is what
`localStorage` holds under `"cart_v1"`, and `qty = none` is an omitted argument. -/
def addToCart (products : List Product) (cartKey : Stored) (productId : String)
    (qty : Option JsNum) : AddResult :=
  let q : JsNum := qty.getD (.int 1)
  match findProduct products productId with
  | none => .notFound
  | some p =>
    match loadKey cartKey with
    | .other => .threw cartKey
    | .arr cart =>
      match findIndexOf productId cart with
      | .error _ => .threw cartKey
      | .ok (some idx) =>
        saveCart (modifyQtyAt (fun old => orNum old 0 + numberOfOrOne q) cart idx)
      | .ok none =>
        saveCart (cart ++ [some { productId := p.id, title := some p.title, price := p.price,
                                  qty := numberOrOne q, image := some p.image }])

/-- The `addCart` button of the product page: `value` is the quantity field and
`product` the product shown. -/
def addCartClick (products : List Product) (cartKey : Stored) (product : Product)
    (value : Option Int) : AddResult :=
  addToCart products cartKey product.id (some (.int (max 1 (inputNumber value))))

/-! ## Shuffling and the upsell grid -/

/-- `Math.floor(x)` -/
def mathFloor (x : Dyadic) : Int := x.num / 2 ^ x.scale

/-- `Math.floor(Math.random() * m)` where `r` is what `Math.random()` returned. -/
def randomIndex (r : Dyadic) (m : Nat) : Nat := (mathFloor (mulDouble (m : Int) r)).toNat

/-- `[a[i], a[j]] = [a[j], a[i]]`. Both positions are inside the array whenever
the draw is in `[0, 1)`; otherwise the list is left as it is. -/
def swap {α : Type} (a : List α) (i j : Nat) : List α :=
  match a[i]?, a[j]? with
  | some x, some y => (a.set i y).set j x
  | _, _ => a

/-- The loop `for (let i = …; i > 0; i--)` of `shuffle`, entered with loop index
`i`; `rand k` is the result of the `k`-th call of `Math.random()`. -/
def shuffleFrom {α : Type} (rand : Nat → Dyadic) : Nat → Nat → List α → List α
  | 0, _, a => a
  | i + 1, k, a => shuffleFrom rand i (k + 1) (swap a (i + 1) (randomIndex (rand k) (i + 2)))

/-- `shuffle(arr)`: works on a copy; `none` is an argument that is not an array. -/
def shuffle {α : Type} (rand : Nat → Dyadic) (arr : Option (List α)) : List α :=
  match arr with
  | some a => shuffleFrom rand (a.length - 1) 0 a
  | none => []

/-- `loadProducts()`: `fetched` is the product list of the fetched document, or
`none` when fetching or parsing failed; the result is `(PRODUCTS, SHUFFLED_PRODUCTS)`. -/
def loadProducts (fetched : Option (List Product)) (rand : Nat → Dyadic) :
    List Product × List Product :=
  match fetched with
  | some ps => (ps, shuffle rand (some ps))
  | none => ([], [])

/-- `!CART.find(c => String(c.productId) === String(p.id))` -/
def notInCart (cart : List Entry) (p : Product) : Except JsError Bool :=
  match findIndexOf p.id cart with
  | .error e => .error e
  | .ok none => .ok true
  | .ok (some _) => .ok false

/-- `pool.filter(p => !CART.find(…))` -/
def filterPool (cart : List Entry) : List Product → Except JsError (List Product)
  | [] => .ok []
  | p :: rest =>
    match notInCart cart p with
    | .error e => .error e
    | .ok keep =>
      match filterPool cart rest with
      | .error e => .error e
      | .ok chosen => .ok (if keep then p :: chosen else chosen)

/-- The products `renderUpsell()` shows: `shuffled` is `SHUFFLED_PRODUCTS`,
`products` is `PRODUCTS`, `cart` is `CART`. -/
def renderUpsell (shuffled products : List Product) (cart : List Entry)
    (rand : Nat → Dyadic) : Except JsError (List Product) :=
  let pool := if shuffled.length ≠ 0 then shuffled else shuffle rand (some products)
  let used := if shuffled.length ≠ 0 then 0 else products.length - 1
  match filterPool cart pool with
  | .error e => .error e
  | .ok chosen =>
    let pick := chosen.take 8
    .ok ((shuffle (fun k => rand (k + used)) (some pick)).take (min 4 pick.length))

/-! ## Rows and checkout -/

/-- `p.title || "Produit"` for `p = PRODUCTS.find(…) || {}` -/
def titleOf (products : List Product) (pid : String) : String :=
  match findProduct products pid with
  | some p => if p.title = "" then "Produit" else p.title
  | none => "Produit"

/-- What the `CART.forEach` loop of `renderCart` puts into a table row. -/
structure Row where
  title : String
  price : Int
  rowSubtotal : Int
deriving DecidableEq, Repr

/-- The body of the `CART.forEach` loop of `renderCart` for one item. -/
def rowOf (products : List Product) (it : CartItem) : Row :=
  { title := titleOf products it.productId,
    price := priceOf products it.productId,
    rowSubtotal := priceOf products it.productId * orNum it.qty 0 }

/-- The rows `renderCart` builds; reading a field of an `undefined` entry throws. -/
def cartRows (products : List Product) : List Entry → Except JsError (List Row)
  | [] => .ok []
  | none :: _ => .error .typeError
  | some it :: rest =>
    match cartRows products rest with
    | .error e => .error e
    | .ok rows => .ok (rowOf products it :: rows)

/-- `format(n)`: `n` is `none` when `Number(n)` is not finite; `fmt` stands for
`Number.prototype.toLocaleString` in the locale of the browser. -/
def format (fmt : Int → String) (n : Option Int) : String :=
  match n with
  | some k => fmt k ++ " FCFA"
  | none => "—"

/-- `format(p.price)` for `p = PRODUCTS.find(…) || {}` -/
def priceText (fmt : Int → String) (products : List Product) (pid : String) : String :=
  match findProduct products pid with
  | some p => format fmt p.price
  | none => format fmt none

/-- The `CART.forEach` loop of the checkout handler, which appends one line per item to `msg`. -/
def checkoutLines (fmt : Int → String) (products : List Product) :
    List Entry → String → Except JsError String
  | [], msg => .ok msg
  | none :: _, _ => .error .typeError
  | some it :: rest, msg =>
    checkoutLines fmt products rest
      (msg ++ ("- " ++ titleOf products it.productId ++ " (x" ++ toString it.qty ++ "): "
        ++ priceText fmt products it.productId ++ "%0A"))

/-- `totalEl.textContent`: what the last `renderCart` wrote; before the first one
the text of the page itself, which is taken as empty. -/
def totalText (fmt : Int → String) (st : State) : String :=
  match st.shown with
  | some t => format fmt (some t.total)
  | none => ""

/-- How the checkout click ends: the alert for an empty cart, the message
handed to `window.open` (before `encodeURIComponent`), a `TypeError`, or no
message because `CART` is not an array (`CART.length` throws for `null`, and is
`undefined`, hence the alert, for a number or a plain object). -/
inductive CheckoutResult where
  | emptyAlert
  | opened (msg : String)
  | threw
  | notArray
deriving DecidableEq, Repr

/-- `checkoutBtn.onclick`: the state it leaves and how it ends. -/
def checkoutClick (fmt : Int → String) (st : State) : State × CheckoutResult :=
  match st.cart with
  | .other => (st, .notArray)
  | .arr [] => (st, .emptyAlert)
  | .arr (e :: rest) =>
    match checkoutLines fmt st.products (e :: rest) "Bonjour, je souhaite commander :%0A" with
    | .error _ => (st, .threw)
    | .ok msg => (st, .opened (msg ++ ("%0ATotal: " ++ totalText fmt st ++ "%0AMerci.")))

/-! ## Invariants of the two lists -/

/-- The item objects of a list, in order. -/
def itemsOf : JsList → List CartItem
  | .arr entries => entries.filterMap id
  | .other => []

/-- Every item of the list has a quantity of at least 1. -/
def qtyOk (l : JsList) : Prop := ∀ it ∈ itemsOf l, 1 ≤ it.qty

instance (l : JsList) : Decidable (qtyOk l) := by
  unfold qtyOk
  infer_instance

/-- The product ids of the items of a list. -/
def idsOf (l : JsList) : List String := (itemsOf l).map (fun it => it.productId)

/-- No product id occurs both in `cart` and in `saved`. -/
def noCommonId (cart saved : JsList) : Prop := ∀ id ∈ idsOf cart, id ∉ idsOf saved

instance (cart saved : JsList) : Decidable (noCommonId cart saved) := by
  unfold noCommonId
  infer_instance

/-- What `localStorage` holds under `"cart_v1"` after `addToCart`, `old` being what it held before. -/
def AddResult.storage (old : Stored) : AddResult → Stored
  | .notFound => old
  | .stored cartKey => cartKey
  | .threw cartKey => cartKey

/-! ## Upper case, random draws and arrays in memory -/

/-- `s.toUpperCase()`; letters outside ASCII are left as they are. -/
def toUpperCase (s : String) : String := String.mk (s.data.map Char.toUpper)

/-- A result of `Math.random()`: a double `r` with `0 ≤ r < 1`, that is a value
`num / 2^scale` below 1 whose numerator has at most 53 significant bits. -/
def isRandomDraw (r : Dyadic) : Prop :=
  0 ≤ r.num ∧ r.num < 2 ^ r.scale ∧ roundSig53 r.num.toNat = r.num.toNat

instance (r : Dyadic) : Decidable (isRandomDraw r) := by
  unfold isRandomDraw
  infer_instance

/-- The pairs `(i, j)` the loop of `shuffle` computes, in order, when it is
entered with loop index `i` and `rand k` is the next result of `Math.random()`. -/
def shuffleSwaps (rand : Nat → Dyadic) : Nat → Nat → List (Nat × Nat)
  | 0, _ => []
  | i + 1, k => (i + 1, randomIndex (rand k) (i + 2)) :: shuffleSwaps rand i (k + 1)

/-- The arrays in memory: the array at address `r` is the `r`-th entry. -/
abbrev Heap (α : Type) := List (List α)

/-- The loop of `shuffle` on the array at address `a` of the heap. -/
def shuffleLoopAt {α : Type} (rand : Nat → Dyadic) (a : Nat) : Nat → Nat → Heap α → Heap α
  | 0, _, heap => heap
  | i + 1, k, heap =>
    shuffleLoopAt rand a i (k + 1)
      (heap.set a (swap (heap.getD a []) (i + 1) (randomIndex (rand k) (i + 2))))

/-- `shuffle(arr)` on arrays in memory: `arr` is the address of the argument when
it is an array and `none` when it is not. `arr.slice()` (or `[]`) is a new array
at a fresh address; the loop works on it, and its address is returned with the
heap. -/
def shuffleAt {α : Type} (rand : Nat → Dyadic) (heap : Heap α) (arr : Option Nat) :
    Heap α × Nat :=
  let copy : List α :=
    match arr.bind (fun r => heap[r]?) with
    | some xs => xs
    | none => []
  (shuffleLoopAt rand heap.length (copy.length - 1) 0 (heap ++ [copy]), heap.length)

/-! ## Sample data -/

/-- A catalog of three products; the last one has no price. -/
def sampleProducts : List Product :=
  [{ id := "1", title := "A", price := some 500 },
   { id := "2", title := "B", price := some 10000 },
   { id := "3", title := "C", price := none }]

/-- Two units of product 1. -/
def sampleItems : List CartItem := [{ productId := "1", qty := 2 }]

/-- One unit of product 2: a subtotal of 10000. -/
def tenThousandItems : List CartItem := [{ productId := "2", qty := 1 }]

/-- A page state whose stored cart is `items`, with nothing saved and `promo` applied. -/
def stateWith (items : List CartItem) (promo : Option Promo) : State :=
  { products := sampleProducts, cart := .arr (items.map some), saved := .arr [],
    promo := promo, storedCart := .json (.arr (items.map some)),
    storedSaved := .json (.arr []), promoMsg := "", shown := none }

/-- A page with `items` in the cart and `saved` in the saved list, memory and
storage in agreement, and no promo applied. -/
def stateHolding (items saved : List CartItem) : State :=
  { products := sampleProducts, cart := .arr (items.map some), saved := .arr (saved.map some),
    promo := none, storedCart := .json (.arr (items.map some)),
    storedSaved := .json (.arr (saved.map some)), promoMsg := "", shown := none }

/-- A source of random numbers that always returns 0. -/
def zeroRand : Nat → Dyadic := fun _ => { num := 0, scale := 0 }

/-- A source of random numbers that always returns one half. -/
def halfRand : Nat → Dyadic := fun _ => { num := 1, scale := 1 }

/-! ## Rounding to a double -/

theorem log2Aux_spec (fuel : Nat) : ∀ n : Nat, 0 < n → n ≤ fuel →
    2 ^ log2Aux fuel n ≤ n ∧ n < 2 ^ (log2Aux fuel n + 1) := by
  induction fuel with
  | zero => intro n h0 h1; omega
  | succ f ih =>
    intro n h0 h1
    unfold log2Aux
    by_cases h2 : n < 2
    · simp only [h2, if_true]
      constructor <;> simp <;> omega
    · simp only [h2, if_false]
      have h3 := ih (n / 2) (by omega) (by omega)
      obtain ⟨h4, h5⟩ := h3
      constructor
      · rw [pow_succ]; omega
      · rw [pow_succ]; omega

theorem floorLog2_spec (n : Nat) (h : 0 < n) :
    2 ^ floorLog2 n ≤ n ∧ n < 2 ^ (floorLog2 n + 1) :=
  log2Aux_spec n n h (le_refl n)

theorem floorLog2_lt (n k : Nat) (h : 0 < n) (hk : n < 2 ^ k) : floorLog2 n < k := by
  by_contra hc
  have h1 := (floorLog2_spec n h).1
  have h2 : 2 ^ k ≤ 2 ^ floorLog2 n := Nat.pow_le_pow_right (by norm_num) (by omega)
  omega

theorem floorLog2_ge (n k : Nat) (hk : 2 ^ k ≤ n) : k ≤ floorLog2 n := by
  by_contra hc
  have h0 : 0 < n := lt_of_lt_of_le (by positivity) hk
  have h1 := (floorLog2_spec n h0).2
  have h2 : 2 ^ (floorLog2 n + 1) ≤ 2 ^ k := Nat.pow_le_pow_right (by norm_num) (by omega)
  omega

theorem roundSig53_ge (n A : Nat) (hA : A ≤ n) (hdiv : 2 ^ (floorLog2 n - 52) ∣ A) :
    A ≤ roundSig53 n := by
  unfold roundSig53
  by_cases h : n < 2 ^ 53
  · simp only [h, if_true]; exact hA
  · simp only [h, if_false]
    obtain ⟨a, rfl⟩ := hdiv
    have hpos : 0 < 2 ^ (floorLog2 n - 52) := by positivity
    have hq : a ≤ n / 2 ^ (floorLog2 n - 52) := by
      rw [Nat.le_div_iff_mul_le hpos]; rw [Nat.mul_comm]; exact hA
    have h1 : 2 ^ (floorLog2 n - 52) * a ≤ n / 2 ^ (floorLog2 n - 52) * 2 ^ (floorLog2 n - 52) := by
      rw [Nat.mul_comm]; exact Nat.mul_le_mul_right _ hq
    have h2 : n / 2 ^ (floorLog2 n - 52) * 2 ^ (floorLog2 n - 52)
        ≤ (n / 2 ^ (floorLog2 n - 52) + 1) * 2 ^ (floorLog2 n - 52) :=
      Nat.mul_le_mul_right _ (Nat.le_succ _)
    split_ifs <;> omega

theorem roundSig53_le (n B : Nat) (hB : n ≤ B) (hdiv : 2 ^ (floorLog2 n - 52) ∣ B) :
    roundSig53 n ≤ B := by
  unfold roundSig53
  by_cases h : n < 2 ^ 53
  · simp only [h, if_true]; exact hB
  · simp only [h, if_false]
    have hl : 53 ≤ floorLog2 n := floorLog2_ge n 53 (by omega)
    obtain ⟨b, rfl⟩ := hdiv
    generalize hs : floorLog2 n - 52 = s at *
    have hpos : 0 < 2 ^ s := by positivity
    have hdm := Nat.div_add_mod n (2 ^ s)
    have hq : n / 2 ^ s * 2 ^ s ≤ 2 ^ s * b := by
      have : n / 2 ^ s * 2 ^ s ≤ n := Nat.div_mul_le_self n (2 ^ s)
      omega
    have hhalf : 0 < 2 ^ (s - 1) := by positivity
    have hup : 0 < n % 2 ^ s → (n / 2 ^ s + 1) * 2 ^ s ≤ 2 ^ s * b := by
      intro hr
      have hlt : n / 2 ^ s < b := by
        rw [Nat.div_lt_iff_lt_mul hpos]
        rw [Nat.mul_comm]
        by_contra hc
        have : n = 2 ^ s * b := by omega
        rw [this] at hr
        simp at hr
      calc (n / 2 ^ s + 1) * 2 ^ s ≤ b * 2 ^ s := Nat.mul_le_mul_right _ hlt
        _ = 2 ^ s * b := Nat.mul_comm _ _
    split_ifs with c1 c2 c3
    · exact hq
    · exact hup (by omega)
    · exact hq
    · exact hup (by omega)


theorem divDouble_10_100 : divDouble 10 100 = ⟨7205759403792794, 56⟩ := by decide

theorem percentDiscount_ten (S : Nat) (hS : S < 2 ^ 50) :
    percentDiscount (S : Int) 10 = ((S * 10 + 50) / 100 : Nat) := by
  unfold percentDiscount
  rw [divDouble_10_100]
  unfold mulDouble mathRound
  simp only [Int.natAbs_ofNat]
  rcases Nat.eq_zero_or_pos S with h0 | hpos
  · subst h0; decide
  · have hsign : Int.sign (S : Int) = 1 := Int.sign_eq_one_of_pos (by exact_mod_cast hpos)
    rw [hsign]
    have hM : Int.sign (7205759403792794 : Int) = 1 := by decide
    rw [hM]
    have hM2 : Int.natAbs (7205759403792794 : Int) = 7205759403792794 := by decide
    rw [hM2]
    generalize hn : S * 7205759403792794 = n
    generalize ht : (S * 10 + 50) / 100 = t
    have ht1 : 100 * t ≤ S * 10 + 50 := by rw [← ht]; exact Nat.mul_div_le _ _
    have ht2 : S * 10 + 50 < 100 * t + 100 := by
      have h := Nat.div_add_mod (S * 10 + 50) 100
      have h' := Nat.mod_lt (S * 10 + 50) (by norm_num : 100 > 0)
      omega
    have e50 : (2:Nat) ^ 50 = 1125899906842624 := by norm_num
    have hnpos : 0 < n := by omega
    have hnlt : n < 2 ^ 103 := by
      have : (2:Nat) ^ 103 = 10141204801825835211973625643008 := by norm_num
      omega
    have hs : floorLog2 n - 52 ≤ 50 := by
      have := floorLog2_lt n 103 hnpos hnlt
      omega
    have hdvd : ∀ x : Nat, 2 ^ (floorLog2 n - 52) ∣ 2 ^ 50 * x := fun x =>
      Dvd.dvd.mul_right (Nat.pow_dvd_pow 2 hs) x
    have hlow : 2 ^ 50 * (32 * (2 * t - 1)) ≤ roundSig53 n := by
      apply roundSig53_ge _ _ _ (hdvd _)
      omega
    have hhigh : roundSig53 n ≤ 2 ^ 50 * (32 * (2 * t + 1) - 1) := by
      apply roundSig53_le _ _ _ (hdvd _)
      omega
    rw [e50] at hlow hhigh
    generalize roundSig53 n = R at hlow hhigh
    have e56 : (2:Int) ^ 56 = 72057594037927936 := by norm_num
    have e57 : (2:Int) ^ (56 + 1) = 144115188075855872 := by norm_num
    rw [e56, e57]
    omega


theorem floorLog2_sub_le (n g : Nat) (h : n < 2 ^ (g + 53)) : floorLog2 n - 52 ≤ g := by
  rcases Nat.eq_zero_or_pos n with h0 | hpos
  · subst h0; simp [floorLog2, log2Aux]
  · have := floorLog2_lt n (g + 53) hpos h
    omega

theorem round_product_bounds (S r M k H : Nat) (hk : 53 ≤ k) (hM : M ≤ 2 ^ 54)
    (hlo : r * 2 ^ k ≤ 100 * M + 100) (hhi : 100 * M ≤ r * 2 ^ k + 100)
    (hS : S < 2 ^ 44) (hH1 : 100 * H ≤ S * r + 50) (hH2 : S * r + 50 < 100 * H + 100) :
    roundSig53 (S * M) + 2 ^ 45 ≤ 2 ^ (k - 1) * (2 * H + 1) ∧
    2 ^ (k - 1) * (2 * H) ≤ roundSig53 (S * M) + 3 * 2 ^ (k - 1) ∧
    ((S * r + 50) % 100 ≠ 0 ∨ r * 2 ^ k ≤ 100 * M →
      2 ^ (k - 1) * (2 * H) ≤ roundSig53 (S * M) + 2 ^ (k - 1)) := by
  obtain ⟨j, rfl⟩ : ∃ j, k = j + 53 := ⟨k - 53, by omega⟩
  have hQ : (2:Nat) ^ (j + 53 - 1) = 2 ^ 45 * (2 ^ j * 128) := by
    rw [show j + 53 - 1 = 45 + (j + 7) by omega, pow_add, pow_add]; norm_num
  have hP : (2:Nat) ^ (j + 53) = 2 * (2 ^ 45 * (2 ^ j * 128)) := by
    rw [show j + 53 = 45 + (j + 8) by omega, pow_add, pow_add]; norm_num; ring
  rw [hQ]
  rw [hP] at hlo hhi ⊢
  have hq : 128 ≤ 2 ^ j * 128 := by
    have hj : 1 ≤ 2 ^ j := Nat.one_le_two_pow
    omega
  clear hQ hP hk
  generalize 2 ^ j * 128 = q at *
  have hn : S * M < 2 ^ (45 + 53) := by
    have h1 : S * M ≤ (2 ^ 44 - 1) * 2 ^ 54 := Nat.mul_le_mul (by omega) hM
    have e : ((2:Nat) ^ 44 - 1) * 2 ^ 54 < 2 ^ (45 + 53) := by norm_num
    exact lt_of_le_of_lt h1 e
  have hs := floorLog2_sub_le (S * M) 45 hn
  have hdvd : ∀ x : Nat, 2 ^ (floorLog2 (S * M) - 52) ∣ 2 ^ 45 * x := fun x =>
    Dvd.dvd.mul_right (Nat.pow_dvd_pow 2 hs) x
  have e45 : (2:Nat) ^ 45 = 35184372088832 := by norm_num
  have e44 : (2:Nat) ^ 44 = 17592186044416 := by norm_num
  rw [e45] at hlo hhi hdvd ⊢
  rw [e44] at hS
  clear hn hs hM e45 e44
  -- products, as atoms
  have f1 : 100 * (S * M) ≤ 2 * (S * r * (35184372088832 * q)) + 100 * S := by
    have := Nat.mul_le_mul_left S hhi
    nlinarith [this]
  have f2 : 2 * (S * r * (35184372088832 * q)) ≤ 100 * (S * M) + 100 * S := by
    have := Nat.mul_le_mul_left S hlo
    nlinarith [this]
  have f3 : 100 * (H * (35184372088832 * q)) ≤ S * r * (35184372088832 * q) + 50 * (35184372088832 * q) := by
    have := Nat.mul_le_mul_right (35184372088832 * q) hH1
    nlinarith [this]
  have f4 : S * r * (35184372088832 * q) + 50 * (35184372088832 * q) + (35184372088832 * q)
      ≤ 100 * (H * (35184372088832 * q)) + 100 * (35184372088832 * q) := by
    have := Nat.mul_le_mul_right (35184372088832 * q) (Nat.succ_le_of_lt hH2)
    nlinarith [this]
  have hX : 35184372088832 * (q * (2 * H + 1)) =
      2 * (H * (35184372088832 * q)) + 35184372088832 * q := by ring
  have hY : 35184372088832 * q * (2 * H) = 2 * (H * (35184372088832 * q)) := by ring
  have hX' : 35184372088832 * q * (2 * H + 1) =
      2 * (H * (35184372088832 * q)) + 35184372088832 * q := by ring
  have g1 : roundSig53 (S * M) ≤ 35184372088832 * (q * (2 * H + 1) - 1) := by
    apply roundSig53_le _ _ _ (hdvd _)
    rw [Nat.mul_sub_one]
    omega
  rw [Nat.mul_sub_one] at g1
  refine ⟨by omega, ?_, ?_⟩
  · rcases Nat.lt_or_ge H 2 with hH | hH
    · have : H * (35184372088832 * q) ≤ 1 * (35184372088832 * q) :=
        Nat.mul_le_mul_right _ (by omega)
      omega
    · have g2 : 35184372088832 * (q * (2 * H - 3)) ≤ roundSig53 (S * M) := by
        apply roundSig53_ge _ _ _ (hdvd _)
        have hZ : 35184372088832 * (q * (2 * H - 3)) + 3 * (35184372088832 * q) =
            2 * (H * (35184372088832 * q)) := by
          obtain ⟨h', rfl⟩ : ∃ h', H = h' + 2 := ⟨H - 2, by omega⟩
          rw [show 2 * (h' + 2) - 3 = 2 * h' + 1 by omega]
          ring
        omega
      have hZ : 35184372088832 * (q * (2 * H - 3)) + 3 * (35184372088832 * q) =
          2 * (H * (35184372088832 * q)) := by
        obtain ⟨h', rfl⟩ : ∃ h', H = h' + 2 := ⟨H - 2, by omega⟩
        rw [show 2 * (h' + 2) - 3 = 2 * h' + 1 by omega]
        ring
      omega
  · intro hcase
    rcases Nat.eq_zero_or_pos H with hH | hH
    · subst hH; omega
    · have hZ : 35184372088832 * (q * (2 * H - 1)) + 35184372088832 * q =
          2 * (H * (35184372088832 * q)) := by
        obtain ⟨h', rfl⟩ : ∃ h', H = h' + 1 := ⟨H - 1, by omega⟩
        rw [show 2 * (h' + 1) - 1 = 2 * h' + 1 by omega]
        ring
      have g3 : 35184372088832 * (q * (2 * H - 1)) ≤ roundSig53 (S * M) := by
        apply roundSig53_ge _ _ _ (hdvd _)
        rcases hcase with hne | hup
        · have hH3 : 100 * H + 1 ≤ S * r + 50 := by omega
          have f5 : 100 * (H * (35184372088832 * q)) + 35184372088832 * q
              ≤ S * r * (35184372088832 * q) + 50 * (35184372088832 * q) := by
            have := Nat.mul_le_mul_right (35184372088832 * q) hH3
            nlinarith [this]
          omega
        · have f6 : 2 * (S * r * (35184372088832 * q)) ≤ 100 * (S * M) := by
            have := Nat.mul_le_mul_left S hup
            nlinarith [this]
          omega
      omega


set_option maxRecDepth 100000 in
theorem divDouble_rate_facts : ∀ r : Nat, r < 101 → 0 < r →
    (divDouble r 100).num = (((divDouble r 100).num.toNat : Nat) : Int) ∧
    53 ≤ (divDouble r 100).scale ∧
    (divDouble r 100).num.toNat ≤ 2 ^ 54 ∧
    r * 2 ^ (divDouble r 100).scale ≤ 100 * (divDouble r 100).num.toNat + 100 ∧
    100 * (divDouble r 100).num.toNat ≤ r * 2 ^ (divDouble r 100).scale + 100 := by
  decide

theorem mathRound_mulDouble (S M k : Nat) (hM : 0 < M) :
    mathRound (mulDouble (S : Int) ⟨(M : Int), k⟩) =
      (((2 * roundSig53 (S * M) + 2 ^ k) / 2 ^ (k + 1) : Nat) : Int) := by
  unfold mathRound mulDouble
  simp only [Int.natAbs_ofNat]
  have hsM : Int.sign (M : Int) = 1 := Int.sign_eq_one_of_pos (by exact_mod_cast hM)
  rcases Nat.eq_zero_or_pos S with h0 | hpos
  · subst h0
    simp [roundSig53]
  · have hsS : Int.sign (S : Int) = 1 := Int.sign_eq_one_of_pos (by exact_mod_cast hpos)
    rw [hsS, hsM]
    push_cast
    ring_nf

theorem percentDiscount_rounding (S r : Nat) (hS : S < 2 ^ 44) (hr : r ≤ 100) :
    (percentDiscount (S : Int) r = ((S * r + 50) / 100 : Nat) ∨
      percentDiscount (S : Int) r + 1 = ((S * r + 50) / 100 : Nat)) ∧
    ((S * r) % 100 ≠ 50 → percentDiscount (S : Int) r = ((S * r + 50) / 100 : Nat)) ∧
    ((r : Int) * 2 ^ (divDouble r 100).scale ≤ 100 * (divDouble r 100).num →
      percentDiscount (S : Int) r = ((S * r + 50) / 100 : Nat)) := by
  rcases Nat.eq_zero_or_pos r with h0 | hpos
  · subst h0
    have : percentDiscount (S : Int) 0 = 0 := by
      unfold percentDiscount
      rw [show divDouble 0 100 = ⟨0, 0⟩ by decide]
      simp [mulDouble, mathRound, roundSig53]
    simp [this]
  · obtain ⟨hnum, hk, hM, hlo, hhi⟩ := divDouble_rate_facts r (by omega) hpos
    generalize hc : divDouble r 100 = c at *
    obtain ⟨num, k⟩ := c
    simp only at hnum hk hM hlo hhi ⊢
    generalize hMdef : num.toNat = M at *
    subst hnum
    have hMpos : 0 < M := by
      by_contra hcon
      have : M = 0 := by omega
      subst this
      have : 2 ^ 53 ≤ 2 ^ k := Nat.pow_le_pow_right (by norm_num) hk
      have e53 : (2:Nat) ^ 53 = 9007199254740992 := by norm_num
      have : 1 * 2 ^ k ≤ r * 2 ^ k := Nat.mul_le_mul_right _ hpos
      omega
    have hH1 : 100 * ((S * r + 50) / 100) ≤ S * r + 50 := Nat.mul_div_le _ _
    have hH2 : S * r + 50 < 100 * ((S * r + 50) / 100) + 100 := by
      have h := Nat.div_add_mod (S * r + 50) 100
      have h' := Nat.mod_lt (S * r + 50) (by norm_num : 100 > 0)
      omega
    generalize (S * r + 50) / 100 = H at *
    obtain ⟨b1, b2, b3⟩ := round_product_bounds S r M k H hk hM hlo hhi hS hH1 hH2
    have hd : percentDiscount (S : Int) r =
        (((2 * roundSig53 (S * M) + 2 ^ k) / 2 ^ (k + 1) : Nat) : Int) := by
      unfold percentDiscount
      rw [hc]
      exact mathRound_mulDouble S M k hMpos
    rw [hd]
    obtain ⟨j, rfl⟩ : ∃ j, k = j + 1 := ⟨k - 1, by omega⟩
    simp only [Nat.add_sub_cancel] at b1 b2 b3
    have hp1 : (2:Nat) ^ (j + 1) = 2 * 2 ^ j := by ring
    have hp2 : (2:Nat) ^ (j + 1 + 1) = 4 * 2 ^ j := by ring
    have hQpos : 0 < 2 ^ j := by positivity
    have hcast : ((r : Int) * 2 ^ (j + 1) ≤ 100 * (M : Int)) ↔ (r * 2 ^ (j + 1) ≤ 100 * M) := by
      norm_cast
    rw [hcast, hp1, hp2]
    rw [hp1] at b3
    generalize 2 ^ j = Q at *
    generalize roundSig53 (S * M) = R at *
    have hupper : (2 * R + 2 * Q) / (4 * Q) ≤ H := by
      have hlt : (2 * R + 2 * Q) / (4 * Q) < H + 1 := by
        rw [Nat.div_lt_iff_lt_mul (by omega)]
        have : (H + 1) * (4 * Q) = 2 * (Q * (2 * H + 1)) + 2 * Q := by ring
        omega
      omega
    have hlower : H ≤ (2 * R + 2 * Q) / (4 * Q) + 1 := by
      rcases Nat.eq_zero_or_pos H with hz | hz
      · rw [hz]; exact Nat.zero_le _
      · have : H - 1 ≤ (2 * R + 2 * Q) / (4 * Q) := by
          rw [Nat.le_div_iff_mul_le (by omega)]
          have : (H - 1) * (4 * Q) + 4 * Q = 2 * (Q * (2 * H)) := by
            obtain ⟨h', rfl⟩ : ∃ h', H = h' + 1 := ⟨H - 1, by omega⟩
            simp only [Nat.add_sub_cancel]; ring
          omega
        omega
    have hexact : Q * (2 * H) ≤ R + Q → (2 * R + 2 * Q) / (4 * Q) = H := by
      intro hb
      apply le_antisymm hupper
      rw [Nat.le_div_iff_mul_le (by omega)]
      have : H * (4 * Q) = 2 * (Q * (2 * H)) := by ring
      omega
    refine ⟨?_, ?_, ?_⟩
    · rcases Nat.lt_or_ge ((2 * R + 2 * Q) / (4 * Q)) H with hlt | hge
      · right; exact_mod_cast (by omega : (2 * R + 2 * Q) / (4 * Q) + 1 = H)
      · left; exact_mod_cast (by omega : (2 * R + 2 * Q) / (4 * Q) = H)
    · intro hne
      have : (S * r + 50) % 100 ≠ 0 := by omega
      exact_mod_cast hexact (b3 (Or.inl this))
    · intro hup
      exact_mod_cast hexact (b3 (Or.inr hup))

/-! ## Pricing -/

theorem orNum_zero (x : Int) : orNum x 0 = x := by
  unfold orNum
  split_ifs with h
  · exact h.symm
  · rfl

theorem priceOf_eq (products : List Product) (pid : String) :
    priceOf products pid =
      (match products.find? (fun p => p.id == pid) with
       | some p => p.price.getD 0
       | none => 0) := by
  unfold priceOf findProduct
  cases products.find? (fun p => p.id == pid) with
  | none => rfl
  | some p =>
    cases hp : p.price with
    | none => simp [hp]
    | some n => simp [hp, orNum_zero]

theorem subtotalLoop_items (products : List Product) (items : List CartItem) :
    ∀ acc : Int, subtotalLoop products (items.map some) acc =
      .ok (acc + (items.map (fun it => priceOf products it.productId * it.qty)).sum) := by
  induction items with
  | nil => intro acc; simp [subtotalLoop]
  | cons it rest ih =>
    intro acc
    simp only [List.map_cons, subtotalLoop, ih, orNum_zero, List.sum_cons]
    rw [Int.add_assoc]

theorem renderCart_items (st : State) (items : List CartItem)
    (hcart : loadKey st.storedCart = .arr (items.map some)) :
    renderCart st = .done { readCart st with
      shown := some (computeTotals st.promo
        ((items.map (fun it => priceOf st.products it.productId * it.qty)).sum)) } := by
  unfold renderCart
  simp only [readCart, hcart, subtotalLoop_items, Int.zero_add]

/-- C1: the totals `renderCart` shows for a stored cart of items: the subtotal is
the sum over the items of (price of the first catalog product with the item's
id, or 0 when there is none) times the quantity, and the total is
subtotal - discount + shipping in the integers, with no clamping at zero. -/
theorem renderCart_totals (st : State) (items : List CartItem)
    (hcart : loadKey st.storedCart = .arr (items.map some)) :
    ∃ t : Totals, renderCart st = .done { readCart st with shown := some t } ∧
      t.subtotal = (items.map (fun it =>
        (match st.products.find? (fun p => p.id == it.productId) with
         | some p => p.price.getD 0
         | none => 0) * it.qty)).sum ∧
      t.total = t.subtotal - t.discount + t.shipping := by
  refine ⟨_, renderCart_items st items hcart, ?_, rfl⟩
  simp only [computeTotals, priceOf_eq]

theorem renderCart_totals_witness :
    ∃ t : Totals, renderCart (stateWith sampleItems none) =
        .done { readCart (stateWith sampleItems none) with shown := some t } ∧
      t.subtotal = (sampleItems.map (fun it =>
        (match (stateWith sampleItems none).products.find? (fun p => p.id == it.productId) with
         | some p => p.price.getD 0
         | none => 0) * it.qty)).sum ∧
      t.total = t.subtotal - t.discount + t.shipping :=
  renderCart_totals (stateWith sampleItems none) sampleItems (by decide)

/-- C2, as stated, fails: with a 29 percent promo on a subtotal of 50 the double
`50 * (29/100)` is `14.499999999999998`, so the discount is 14, while
`⌊(50 * 29 + 50) / 100⌋ = 15`. -/
theorem percent29_discount_below_half_up :
    (computeTotals (some ⟨.percent, 29⟩) 50).discount = 14 ∧
      (computeTotals (some ⟨.percent, 29⟩) 50).discount ≠ (50 * 29 + 50) / 100 := by
  decide

theorem discount_percent_ten (S : Nat) (hS : S < 2 ^ 50) :
    (computeTotals (some ⟨.percent, 10⟩) S).discount = ((S * 10 + 50) / 100 : Nat) := by
  simp only [computeTotals, if_true]
  exact percentDiscount_ten S hS

/-- C2, amended: for every subtotal `0 ≤ S < 2^44` and every percent promo with a
rate `r` in `0 … 100`, the discount is `⌊(S * r + 50) / 100⌋` (`S * r / 100`
rounded to the nearest integer, halves up) whenever `S * r / 100` is not
exactly half-way between two integers, and for the rate 10 of the promo table
always; on an exact half it is that value or one less. With no promo or a
free-shipping promo the discount is 0. -/
theorem discount_percent_rounding (S r : Nat) (hS : S < 2 ^ 44) (hr : r ≤ 100) :
    ((computeTotals (some ⟨.percent, r⟩) S).discount = ((S * r + 50) / 100 : Nat) ∨
      (computeTotals (some ⟨.percent, r⟩) S).discount + 1 = ((S * r + 50) / 100 : Nat)) ∧
    ((S * r) % 100 ≠ 50 →
      (computeTotals (some ⟨.percent, r⟩) S).discount = ((S * r + 50) / 100 : Nat)) ∧
    (r = 10 →
      (computeTotals (some ⟨.percent, r⟩) S).discount = ((S * r + 50) / 100 : Nat)) ∧
    (computeTotals none S).discount = 0 ∧
    ∀ v : Nat, (computeTotals (some ⟨.shipping, v⟩) S).discount = 0 := by
  have hd : (computeTotals (some ⟨.percent, r⟩) S).discount = percentDiscount (S : Int) r := by
    simp only [computeTotals, if_true]
  rw [hd]
  obtain ⟨h1, h2, h3⟩ := percentDiscount_rounding S r hS hr
  refine ⟨h1, h2, ?_, rfl, fun v => rfl⟩
  intro h10
  subst h10
  exact h3 (by decide)

theorem discount_percent_rounding_witness :
    ((computeTotals (some ⟨.percent, 29⟩) (50 : Nat)).discount = ((50 * 29 + 50) / 100 : Nat) ∨
      (computeTotals (some ⟨.percent, 29⟩) (50 : Nat)).discount + 1
        = ((50 * 29 + 50) / 100 : Nat)) :=
  (discount_percent_rounding 50 29 (by decide) (by decide)).1

/-! ## Promo codes -/

theorem applyPromoClick_known (st : State) (input : String) (promo : Promo)
    (hne : normalizeCode input ≠ "") (hp : PROMOS (normalizeCode input) = some promo) :
    applyPromoClick st input =
      renderCart { st with promo := some promo, promoMsg := "Code appliqué." } := by
  unfold applyPromoClick
  simp only [hne, if_false, hp]

/-- C3: after the promo click with "TONGA10" on a stored cart of items, the page
shows the subtotal `S` of the cart, the discount `Math.round(S * (10/100))`,
shipping 2500 and total `S - discount + 2500`; for `0 ≤ S < 2^50` that discount
is `⌊(S * 10 + 50) / 100⌋`, the nearest integer to `S * 10 / 100`, and for
`S = 10000` the discount is 1000 and the total `10000 - 1000 + 2500`. -/
theorem applyPromo_TONGA10 (st : State) (items : List CartItem)
    (hcart : loadKey st.storedCart = .arr (items.map some)) :
    ∃ t : Totals,
      applyPromoClick st "TONGA10" =
        .done { readCart st with promo := some ⟨.percent, 10⟩, promoMsg := "Code appliqué.",
                                 shown := some t } ∧
      t.subtotal = (items.map (fun it => priceOf st.products it.productId * it.qty)).sum ∧
      t.discount = percentDiscount t.subtotal 10 ∧ t.shipping = 2500 ∧
      t.total = t.subtotal - t.discount + 2500 ∧
      (∀ S : Nat, t.subtotal = S → S < 2 ^ 50 → t.discount = ((S * 10 + 50) / 100 : Nat)) ∧
      (t.subtotal = 10000 → t.discount = 1000 ∧ t.total = 10000 - 1000 + 2500) := by
  refine ⟨computeTotals (some ⟨.percent, 10⟩)
    ((items.map (fun it : CartItem => priceOf st.products it.productId * it.qty)).sum),
    ?_, rfl, rfl, rfl, rfl, ?_, ?_⟩
  · rw [applyPromoClick_known st "TONGA10" ⟨.percent, 10⟩ (by decide) (by decide)]
    rw [renderCart_items { st with promo := some ⟨.percent, 10⟩, promoMsg := "Code appliqué." }
      items hcart]
    rfl
  · intro S hS hb
    have hsub : (computeTotals (some ⟨.percent, 10⟩)
        ((items.map (fun it : CartItem => priceOf st.products it.productId * it.qty)).sum)).subtotal
        = (items.map (fun it : CartItem => priceOf st.products it.productId * it.qty)).sum := rfl
    rw [hsub] at hS
    rw [hS]
    exact discount_percent_ten S hb
  · intro h
    have hsub : (computeTotals (some ⟨.percent, 10⟩)
        ((items.map (fun it : CartItem => priceOf st.products it.productId * it.qty)).sum)).subtotal
        = (items.map (fun it : CartItem => priceOf st.products it.productId * it.qty)).sum := rfl
    rw [hsub] at h
    rw [h]
    decide

theorem applyPromo_TONGA10_witness :
    ∃ t : Totals,
      applyPromoClick (stateWith tenThousandItems none) "TONGA10" =
        .done { readCart (stateWith tenThousandItems none) with
                  promo := some ⟨.percent, 10⟩, promoMsg := "Code appliqué.", shown := some t } ∧
      t.subtotal = 10000 ∧ t.discount = 1000 ∧ t.shipping = 2500 ∧
      t.total = 10000 - 1000 + 2500 := by
  obtain ⟨t, h1, h2, _, h4, _, _, h7⟩ :=
    applyPromo_TONGA10 (stateWith tenThousandItems none) tenThousandItems (by decide)
  have hs : t.subtotal = 10000 := by rw [h2]; decide
  exact ⟨t, h1, hs, (h7 hs).1, h4, (h7 hs).2⟩

/-- C4: after the promo click with "FREEDEL" on a stored cart of items, whatever
promo was applied before, the applied promo is the free-shipping one alone and
the page shows discount 0, shipping 0 and total = subtotal. -/
theorem applyPromo_FREEDEL (st : State) (items : List CartItem)
    (hcart : loadKey st.storedCart = .arr (items.map some)) :
    ∃ t : Totals,
      applyPromoClick st "FREEDEL" =
        .done { readCart st with promo := some ⟨.shipping, 1⟩, promoMsg := "Code appliqué.",
                                 shown := some t } ∧
      t.subtotal = (items.map (fun it => priceOf st.products it.productId * it.qty)).sum ∧
      t.discount = 0 ∧ t.shipping = 0 ∧ t.total = t.subtotal := by
  refine ⟨computeTotals (some ⟨.shipping, 1⟩)
    ((items.map (fun it : CartItem => priceOf st.products it.productId * it.qty)).sum),
    ?_, rfl, rfl, rfl, ?_⟩
  · rw [applyPromoClick_known st "FREEDEL" ⟨.shipping, 1⟩ (by decide) (by decide)]
    rw [renderCart_items { st with promo := some ⟨.shipping, 1⟩, promoMsg := "Code appliqué." }
      items hcart]
    rfl
  · simp [computeTotals]

theorem applyPromo_FREEDEL_witness :
    ∃ t : Totals,
      applyPromoClick (stateWith tenThousandItems (some ⟨.percent, 10⟩)) "FREEDEL" =
        .done { readCart (stateWith tenThousandItems (some ⟨.percent, 10⟩)) with
                  promo := some ⟨.shipping, 1⟩, promoMsg := "Code appliqué.", shown := some t } ∧
      t.subtotal = (tenThousandItems.map (fun it =>
        priceOf (stateWith tenThousandItems (some ⟨.percent, 10⟩)).products it.productId
          * it.qty)).sum ∧
      t.discount = 0 ∧ t.shipping = 0 ∧ t.total = t.subtotal :=
  applyPromo_FREEDEL (stateWith tenThousandItems (some ⟨.percent, 10⟩)) tenThousandItems
    (by decide)

/-- C5: a promo click whose code, trimmed and upper-cased, is not a key of the
promo table ends without an exception and changes nothing but the message:
the applied promo, the cart, the saved list, both storage keys and the totals
shown stay as they were, a non-empty code is answered with "Code invalide.",
and rendering the cart afterwards shows the same totals as before; "NOPE" is
such a code. -/
theorem applyPromo_unknown (st : State) (input : String)
    (hp : PROMOS (normalizeCode input) = none) :
    ∃ st' : State, applyPromoClick st input = .done st' ∧
      st'.promo = st.promo ∧ st'.cart = st.cart ∧ st'.saved = st.saved ∧
      st'.storedCart = st.storedCart ∧ st'.storedSaved = st.storedSaved ∧
      st'.products = st.products ∧ st'.shown = st.shown ∧
      (normalizeCode input ≠ "" → st'.promoMsg = "Code invalide.") ∧
      (normalizeCode input = "" → st' = st) ∧
      (renderCart st').state.shown = (renderCart st).state.shown ∧
      PROMOS (normalizeCode "NOPE") = none := by
  unfold applyPromoClick
  by_cases hne : normalizeCode input = ""
  · refine ⟨st, ?_, rfl, rfl, rfl, rfl, rfl, rfl, rfl, ?_, fun _ => rfl, rfl, by decide⟩
    · simp only [hne, if_true]
    · intro h; exact absurd hne h
  · refine ⟨{ st with promoMsg := "Code invalide." }, ?_, rfl, rfl, rfl, rfl, rfl, rfl, rfl,
      fun _ => rfl, ?_, ?_, by decide⟩
    · simp only [hne, if_false, hp]
    · intro h; exact absurd h hne
    · unfold renderCart readCart
      simp only
      cases loadKey st.storedCart with
      | other => rfl
      | arr entries =>
        simp only
        cases subtotalLoop st.products entries 0 <;> rfl

theorem applyPromo_unknown_witness :
    ∃ st' : State, applyPromoClick (stateWith sampleItems (some ⟨.percent, 10⟩)) "NOPE" = .done st' ∧
      st'.promo = (stateWith sampleItems (some ⟨.percent, 10⟩)).promo ∧
      st'.promoMsg = "Code invalide." := by
  obtain ⟨st', h1, h2, _, _, _, _, _, _, h3, _⟩ :=
    applyPromo_unknown (stateWith sampleItems (some ⟨.percent, 10⟩)) "NOPE" (by decide)
  exact ⟨st', h1, h2, h3 (by decide)⟩

/-! ## Quantity handlers -/

theorem badgeComputes_items (items : List CartItem) :
    badgeComputes (.arr (items.map some)) = true := by
  simp [badgeComputes]

theorem writeCart_items (st : State) (items : List CartItem)
    (hcart : st.cart = .arr (items.map some)) :
    writeCart st = .done { st with storedCart := .json (.arr (items.map some)) } := by
  unfold writeCart
  simp only [hcart, badgeComputes_items, if_true]

theorem writeCart_renderCart_items (st : State) (items : List CartItem)
    (hcart : st.cart = .arr (items.map some)) :
    ∃ t : Totals, (writeCart st).andThen renderCart =
      .done { st with cart := .arr (items.map some),
                      storedCart := .json (.arr (items.map some)),
                      saved := loadKey st.storedSaved, shown := some t } := by
  refine ⟨computeTotals st.promo
    ((items.map (fun it : CartItem => priceOf st.products it.productId * it.qty)).sum), ?_⟩
  rw [writeCart_items st items hcart]
  simp only [Outcome.andThen]
  rw [renderCart_items { st with storedCart := .json (.arr (items.map some)) } items rfl]
  rfl

theorem setQtyAt_items (st : State) (items : List CartItem) (i : Nat) (v : Int) (it : CartItem)
    (hcart : st.cart = .arr (items.map some)) (hit : items[i]? = some it) :
    setQtyAt st (i : Int) v =
      .done { st with cart := .arr ((items.set i { it with qty := v }).map some) } := by
  unfold setQtyAt entryAt
  simp only [hcart, Int.ofNat_zero_le, if_true, Int.toNat_ofNat, List.getElem?_map, hit,
    Option.map_some', List.map_set]

/-- C6: the change handler of the quantity field of row `i` (a valid index of a
cart of items) with the requested quantity `q` stores `max 1 q` on item `i`,
keeps the length of the cart and every other item in place, and persists that
cart; a requested `q ≤ 0` stores quantity 1. -/
theorem qtyChange_valid (st : State) (items : List CartItem) (i : Nat) (q : Int)
    (hcart : st.cart = .arr (items.map some)) (hi : i < items.length) :
    ∃ (newItems : List CartItem) (st' : State),
      qtyChange st (i : Int) (some q) = .done st' ∧
      st'.cart = .arr (newItems.map some) ∧
      st'.storedCart = .json (.arr (newItems.map some)) ∧
      newItems.length = items.length ∧
      (∀ it, items[i]? = some it → newItems[i]? = some { it with qty := max 1 q }) ∧
      (∀ j, j ≠ i → newItems[j]? = items[j]?) ∧
      (q ≤ 0 → ∀ it, newItems[i]? = some it → it.qty = 1) := by
  obtain ⟨it, hit⟩ : ∃ it, items[i]? = some it := ⟨items[i], List.getElem?_eq_getElem hi⟩
  have hset := setQtyAt_items st items i (max 1 (inputNumber (some q))) it hcart hit
  obtain ⟨t, ht⟩ := writeCart_renderCart_items
    { st with cart := .arr ((items.set i { it with qty := max 1 (inputNumber (some q)) }).map some) }
    (items.set i { it with qty := max 1 (inputNumber (some q)) }) rfl
  refine ⟨items.set i { it with qty := max 1 q },
    { st with cart := .arr ((items.set i { it with qty := max 1 q }).map some),
              storedCart := .json (.arr ((items.set i { it with qty := max 1 q }).map some)),
              saved := loadKey st.storedSaved, shown := some t }, ?_, rfl, rfl, ?_, ?_, ?_, ?_⟩
  · unfold qtyChange
    simp only [hset, Outcome.andThen]
    exact ht
  · simp
  · intro it' hit'
    rw [hit] at hit'
    cases hit'
    simp [hi]
  · intro j hj
    simp [List.getElem?_set_ne (Ne.symm hj)]
  · intro hq it' hit'
    rw [List.getElem?_set_self (by simpa using hi)] at hit'
    cases hit'
    exact max_eq_left (by omega)

theorem qtyChange_valid_witness :
    ∃ (newItems : List CartItem) (st' : State),
      qtyChange (stateWith sampleItems none) ((0 : Nat) : Int) (some 0) = .done st' ∧
      st'.cart = .arr (newItems.map some) ∧
      newItems[0]? = some { productId := "1", qty := 1 } := by
  obtain ⟨newItems, st', h1, h2, _, _, h3, _, _⟩ :=
    qtyChange_valid (stateWith sampleItems none) sampleItems 0 0 rfl (by decide)
  exact ⟨newItems, st', h1, h2, h3 _ rfl⟩

/-! ## Adding to the cart -/

theorem findIndexOf_none (pid : String) (items : List CartItem)
    (h : ∀ x ∈ items, x.productId ≠ pid) : findIndexOf pid (items.map some) = .ok none := by
  induction items with
  | nil => rfl
  | cons x rest ih =>
    have hx : x.productId ≠ pid := h x (List.mem_cons_self _ _)
    have hr := ih (fun y hy => h y (List.mem_cons_of_mem _ hy))
    simp only [List.map_cons, findIndexOf, hx, if_false, hr]

theorem findIndexOf_first (pid : String) (pre post : List CartItem) (it : CartItem)
    (hpre : ∀ x ∈ pre, x.productId ≠ pid) (hit : it.productId = pid) :
    findIndexOf pid ((pre ++ it :: post).map some) = .ok (some pre.length) := by
  induction pre with
  | nil => simp only [List.nil_append, List.map_cons, findIndexOf, hit, if_true, List.length_nil]
  | cons x rest ih =>
    have hx : x.productId ≠ pid := hpre x (List.mem_cons_self _ _)
    have hr := ih (fun y hy => hpre y (List.mem_cons_of_mem _ hy))
    simp only [List.cons_append, List.map_cons, findIndexOf, hx, if_false, List.length_cons,
      List.append_eq]
    rw [hr]

theorem modifyQtyAt_first (f : Int → Int) (pre post : List CartItem) (it : CartItem) :
    modifyQtyAt f ((pre ++ it :: post).map some) pre.length =
      (pre ++ { it with qty := f it.qty } :: post).map some := by
  induction pre with
  | nil => simp [modifyQtyAt]
  | cons x rest ih =>
    simp only [List.cons_append, List.map_cons, List.length_cons, modifyQtyAt, List.append_eq]
    rw [ih]

theorem first_match_split (pid : String) (items : List CartItem) :
    (∀ x ∈ items, x.productId ≠ pid) ∨
      ∃ pre it post, items = pre ++ it :: post ∧ (∀ x ∈ pre, x.productId ≠ pid) ∧
        it.productId = pid := by
  induction items with
  | nil => left; intro x hx; cases hx
  | cons x rest ih =>
    by_cases hx : x.productId = pid
    · right; exact ⟨[], x, rest, rfl, (fun y hy => by cases hy), hx⟩
    · rcases ih with h | ⟨pre, it, post, h1, h2, h3⟩
      · left
        intro y hy
        rcases List.mem_cons.mp hy with rfl | hy'
        · exact hx
        · exact h y hy'
      · right
        refine ⟨x :: pre, it, post, by rw [h1]; rfl, ?_, h3⟩
        intro y hy
        rcases List.mem_cons.mp hy with rfl | hy'
        · exact hx
        · exact h2 y hy'

theorem upsellAddClick_existing (st : State) (pid : String) (pre post : List CartItem)
    (it : CartItem) (hcart : st.cart = .arr ((pre ++ it :: post).map some))
    (hpre : ∀ x ∈ pre, x.productId ≠ pid) (hit : it.productId = pid) :
    ∃ t : Totals, upsellAddClick st pid =
      .done { st with cart := .arr ((pre ++ { it with qty := it.qty + 1 } :: post).map some),
                      storedCart := .json (.arr ((pre ++ { it with qty := it.qty + 1 } :: post).map some)),
                      saved := loadKey st.storedSaved, shown := some t } := by
  obtain ⟨t, ht⟩ := writeCart_renderCart_items
    { st with cart := .arr ((pre ++ { it with qty := it.qty + 1 } :: post).map some) }
    (pre ++ { it with qty := it.qty + 1 } :: post) rfl
  refine ⟨t, ?_⟩
  unfold upsellAddClick
  simp only [hcart, findIndexOf_first pid pre post it hpre hit, modifyQtyAt_first, orNum_zero]
  exact ht

theorem upsellAddClick_new (st : State) (pid : String) (items : List CartItem)
    (hcart : st.cart = .arr (items.map some)) (hno : ∀ x ∈ items, x.productId ≠ pid) :
    ∃ t : Totals, upsellAddClick st pid =
      .done { st with cart := .arr ((items ++ [({ productId := pid, qty := 1 } : CartItem)]).map some),
                      storedCart := .json (.arr ((items ++ [({ productId := pid, qty := 1 } : CartItem)]).map some)),
                      saved := loadKey st.storedSaved, shown := some t } := by
  obtain ⟨t, ht⟩ := writeCart_renderCart_items
    { st with cart := .arr ((items ++ [({ productId := pid, qty := 1 } : CartItem)]).map some) }
    (items ++ [({ productId := pid, qty := 1 } : CartItem)]) rfl
  refine ⟨t, ?_⟩
  unfold upsellAddClick
  simp only [hcart, findIndexOf_none pid items hno]
  rw [show items.map some ++ [some ({ productId := pid, qty := 1 } : CartItem)] =
    (items ++ [({ productId := pid, qty := 1 } : CartItem)]).map some by simp]
  exact ht

theorem findProduct_id (products : List Product) (pid : String) (p : Product)
    (h : findProduct products pid = some p) : p.id = pid := by
  unfold findProduct at h
  have := List.find?_some h
  simpa using this

theorem saveCart_items (items : List CartItem) :
    saveCart (items.map some) = .stored (.json (.arr (items.map some))) := by
  unfold saveCart
  simp only [badgeComputes_items, if_true]

theorem addToCart_existing (products : List Product) (cartKey : Stored) (pid : String)
    (p : Product) (q : Option JsNum) (pre post : List CartItem) (it : CartItem)
    (hp : findProduct products pid = some p)
    (hcart : loadKey cartKey = .arr ((pre ++ it :: post).map some))
    (hpre : ∀ x ∈ pre, x.productId ≠ pid) (hit : it.productId = pid) :
    addToCart products cartKey pid q =
      .stored (.json (.arr ((pre ++
        { it with qty := it.qty + numberOfOrOne (q.getD (.int 1)) } :: post).map some))) := by
  unfold addToCart
  simp only [hp, hcart, findIndexOf_first pid pre post it hpre hit, modifyQtyAt_first,
    orNum_zero, saveCart_items]

theorem addToCart_new (products : List Product) (cartKey : Stored) (pid : String)
    (p : Product) (q : Option JsNum) (items : List CartItem)
    (hp : findProduct products pid = some p)
    (hcart : loadKey cartKey = .arr (items.map some))
    (hno : ∀ x ∈ items, x.productId ≠ pid) :
    addToCart products cartKey pid q =
      .stored (.json (.arr ((items ++
        [({ productId := pid, title := some p.title, price := p.price,
            qty := numberOrOne (q.getD (.int 1)), image := some p.image } : CartItem)]).map some))) := by
  unfold addToCart
  simp only [hp, hcart, findIndexOf_none pid items hno, findProduct_id products pid p hp]
  rw [← saveCart_items]
  simp

/-- C7: adding a product id. With the upsell button (quantity 1) and with
`addToCart` of the product page (a catalog product, quantity `qty ≥ 1`): two
additions of the same id to an empty cart leave exactly one item with that id
and quantity 2; an id already in a cart of items keeps the number and the
order of the items and raises the quantity of the first item with that id by
the quantity added; an id not in the cart appends one item with that quantity
at the end. -/
theorem addOrIncrement_cart (pid : String) :
    (∀ st : State, st.cart = .arr [] →
      ∃ st1 st2 : State, upsellAddClick st pid = .done st1 ∧
        upsellAddClick st1 pid = .done st2 ∧
        st2.cart = .arr [some { productId := pid, qty := 2 }]) ∧
    (∀ (st : State) (pre post : List CartItem) (it : CartItem),
      st.cart = .arr ((pre ++ it :: post).map some) →
      (∀ x ∈ pre, x.productId ≠ pid) → it.productId = pid →
      ∃ st' : State, upsellAddClick st pid = .done st' ∧
        st'.cart = .arr ((pre ++ { it with qty := it.qty + 1 } :: post).map some)) ∧
    (∀ (st : State) (items : List CartItem),
      st.cart = .arr (items.map some) → (∀ x ∈ items, x.productId ≠ pid) →
      ∃ st' : State, upsellAddClick st pid = .done st' ∧
        st'.cart = .arr ((items ++ [({ productId := pid, qty := 1 } : CartItem)]).map some)) ∧
    (∀ (products : List Product) (p : Product) (cartKey : Stored) (qty : Int)
        (pre post : List CartItem) (it : CartItem),
      findProduct products pid = some p → 1 ≤ qty →
      loadKey cartKey = .arr ((pre ++ it :: post).map some) →
      (∀ x ∈ pre, x.productId ≠ pid) → it.productId = pid →
      addToCart products cartKey pid (some (.int qty)) =
        .stored (.json (.arr ((pre ++ { it with qty := it.qty + qty } :: post).map some)))) ∧
    (∀ (products : List Product) (p : Product) (cartKey : Stored) (qty : Int)
        (items : List CartItem),
      findProduct products pid = some p → 1 ≤ qty →
      loadKey cartKey = .arr (items.map some) → (∀ x ∈ items, x.productId ≠ pid) →
      addToCart products cartKey pid (some (.int qty)) =
        .stored (.json (.arr ((items ++
          [({ productId := pid, qty := qty, title := some p.title, price := p.price,
              image := some p.image } : CartItem)]).map some)))) ∧
    (∀ (products : List Product) (p : Product) (cartKey : Stored),
      findProduct products pid = some p → loadKey cartKey = .arr [] →
      ∃ s1 s2 : Stored, addToCart products cartKey pid (some (.int 1)) = .stored s1 ∧
        addToCart products s1 pid (some (.int 1)) = .stored s2 ∧
        loadKey s2 = .arr [some { productId := pid, qty := 2, title := some p.title,
                                  price := p.price, image := some p.image }]) := by
  have hpos : ∀ qty : Int, 1 ≤ qty → numberOfOrOne (.int qty) = qty ∧ numberOrOne (.int qty) = qty := by
    intro qty h
    have h0 : qty ≠ 0 := by omega
    simp [numberOfOrOne, numberOrOne, orNum, h0]
  refine ⟨?_, ?_, ?_, ?_, ?_, ?_⟩
  · intro st hcart
    obtain ⟨t1, h1⟩ := upsellAddClick_new st pid [] hcart (fun x hx => by cases hx)
    obtain ⟨t2, h2⟩ := upsellAddClick_existing
      { st with cart := .arr (([] ++ [({ productId := pid, qty := 1 } : CartItem)]).map some),
                storedCart := .json (.arr (([] ++ [({ productId := pid, qty := 1 } : CartItem)]).map some)),
                saved := loadKey st.storedSaved, shown := some t1 }
      pid [] [] { productId := pid, qty := 1 } rfl (fun x hx => by cases hx) rfl
    exact ⟨_, _, h1, h2, rfl⟩
  · intro st pre post it hcart hpre hit
    obtain ⟨t, h⟩ := upsellAddClick_existing st pid pre post it hcart hpre hit
    exact ⟨_, h, rfl⟩
  · intro st items hcart hno
    obtain ⟨t, h⟩ := upsellAddClick_new st pid items hcart hno
    exact ⟨_, h, rfl⟩
  · intro products p cartKey qty pre post it hp hq hcart hpre hit
    rw [addToCart_existing products cartKey pid p _ pre post it hp hcart hpre hit]
    simp only [Option.getD_some, (hpos qty hq).1]
  · intro products p cartKey qty items hp hq hcart hno
    rw [addToCart_new products cartKey pid p _ items hp hcart hno]
    simp only [Option.getD_some, (hpos qty hq).2]
  · intro products p cartKey hp hcart
    have hone : numberOrOne ((some (JsNum.int 1)).getD (.int 1)) = 1 := by decide
    have hone' : numberOfOrOne ((some (JsNum.int 1)).getD (.int 1)) = 1 := by decide
    have h1 := addToCart_new products cartKey pid p (some (.int 1)) [] hp hcart
      (fun x hx => by cases hx)
    rw [hone] at h1
    have h2 := addToCart_existing products
      (.json (.arr [some (CartItem.mk pid 1 (some p.title) p.price (some p.image))]))
      pid p (some (.int 1)) [] [] (CartItem.mk pid 1 (some p.title) p.price (some p.image))
      hp rfl (fun x hx => by cases hx) rfl
    rw [hone'] at h2
    exact ⟨_, _, h1, h2, rfl⟩

theorem addOrIncrement_cart_witness :
    ∃ st1 st2 : State, upsellAddClick (stateWith [] none) "1" = .done st1 ∧
      upsellAddClick st1 "1" = .done st2 ∧
      st2.cart = .arr [some { productId := "1", qty := 2 }] :=
  (addOrIncrement_cart "1").1 (stateWith [] none) rfl

/-- C8, as stated, fails: `addToCart` with an id that has no catalog entry stops
at its guard (an alert; nothing is added or stored), and a negative quantity is
not coerced: `addToCart("1", -3)` on an empty cart stores an item of quantity -3. -/
theorem addToCart_unknown_id_and_negative_qty :
    addToCart sampleProducts .absent "99" (some (.int 1)) = .notFound ∧
      addToCart sampleProducts .absent "1" (some (.int (-3))) =
        .stored (.json (.arr [some { productId := "1", qty := -3, title := some "A",
                                     price := some 500, image := some "" }])) := by
  decide

/-- C8, amended: on a stored cart of items `addToCart` never throws. For an id
with no catalog entry it stops at its guard and stores nothing. For an id of
the catalog and a quantity that is omitted, `NaN`, or an integer `n ≥ 0`, it
stores the cart with the first item of that id raised by `a`, or with one new
item of quantity `a` appended, where `a = max 1 n` (1 for omitted, `NaN`, 0),
so `a ≥ 1`. The upsell button, which checks no catalog, always ends with the
cart stored. -/
theorem addToCart_outcomes (products : List Product) (cartKey : Stored)
    (items : List CartItem) (pid : String) (q : Option JsNum) (a : Int)
    (hcart : loadKey cartKey = .arr (items.map some))
    (hq : (q = none ∧ a = 1) ∨ (q = some .nan ∧ a = 1) ∨
      ∃ n : Int, 0 ≤ n ∧ q = some (.int n) ∧ a = max 1 n) :
    1 ≤ a ∧
    (findProduct products pid = none → addToCart products cartKey pid q = .notFound) ∧
    (∀ p : Product, findProduct products pid = some p →
      ∃ new : List CartItem,
        addToCart products cartKey pid q = .stored (.json (.arr (new.map some))) ∧
        ((∃ pre it post, items = pre ++ it :: post ∧ (∀ x ∈ pre, x.productId ≠ pid) ∧
            it.productId = pid ∧ new = pre ++ { it with qty := it.qty + a } :: post) ∨
         ((∀ x ∈ items, x.productId ≠ pid) ∧
            ∃ item : CartItem, item.productId = pid ∧ item.qty = a ∧ new = items ++ [item]))) ∧
    (∀ st : State, st.cart = .arr (items.map some) →
      ∃ (st' : State) (new : List CartItem), upsellAddClick st pid = .done st' ∧
        st'.cart = .arr (new.map some) ∧ st'.storedCart = .json (.arr (new.map some)) ∧
        ((∃ pre it post, items = pre ++ it :: post ∧ (∀ x ∈ pre, x.productId ≠ pid) ∧
            it.productId = pid ∧ new = pre ++ { it with qty := it.qty + 1 } :: post) ∨
         ((∀ x ∈ items, x.productId ≠ pid) ∧
            new = items ++ [({ productId := pid, qty := 1 } : CartItem)]))) := by
  have ha : 1 ≤ a ∧ numberOfOrOne (q.getD (.int 1)) = a ∧ numberOrOne (q.getD (.int 1)) = a := by
    rcases hq with ⟨rfl, rfl⟩ | ⟨rfl, rfl⟩ | ⟨n, hn, rfl, rfl⟩
    · decide
    · decide
    · simp only [Option.getD_some, numberOfOrOne, numberOrOne, orNum]
      refine ⟨le_max_left 1 n, ?_, ?_⟩ <;>
      · split_ifs with h0
        · subst h0; rfl
        · exact (max_eq_right (by omega)).symm
  refine ⟨ha.1, ?_, ?_, ?_⟩
  · intro hp
    unfold addToCart
    simp only [hp]
  · intro p hp
    rcases first_match_split pid items with hno | ⟨pre, it, post, hsplit, hpre, hit⟩
    · refine ⟨_, addToCart_new products cartKey pid p q items hp hcart hno, Or.inr ⟨hno, _, rfl, ?_, rfl⟩⟩
      exact ha.2.2
    · subst hsplit
      refine ⟨_, addToCart_existing products cartKey pid p q pre post it hp hcart hpre hit,
        Or.inl ⟨pre, it, post, rfl, hpre, hit, ?_⟩⟩
      rw [ha.2.1]
  · intro st hst
    rcases first_match_split pid items with hno | ⟨pre, it, post, hsplit, hpre, hit⟩
    · obtain ⟨t, h⟩ := upsellAddClick_new st pid items hst hno
      exact ⟨_, _, h, rfl, rfl, Or.inr ⟨hno, rfl⟩⟩
    · subst hsplit
      obtain ⟨t, h⟩ := upsellAddClick_existing st pid pre post it hst hpre hit
      exact ⟨_, _, h, rfl, rfl, Or.inl ⟨pre, it, post, rfl, hpre, hit, rfl⟩⟩

theorem addToCart_outcomes_witness :
    (1 : Int) ≤ 1 ∧
      addToCart sampleProducts (.json (.arr (sampleItems.map some))) "1" (some (.int 0)) =
        .stored (.json (.arr [some { productId := "1", qty := 3 }])) := by
  have h := addToCart_outcomes sampleProducts (.json (.arr (sampleItems.map some))) sampleItems "1"
    (some (.int 0)) 1 rfl (Or.inr (Or.inr ⟨0, le_refl 0, rfl, by decide⟩))
  exact ⟨h.1, by decide⟩

/-! ## Moving items between the cart and the saved list -/

theorem splice1_valid {α : Type} (a : List α) (i : Nat) (h : i < a.length) :
    splice1 a (i : Int) = ([a[i]], a.eraseIdx i) := by
  unfold splice1
  have h1 : ¬ ((i : Int) < 0) := by omega
  have h2 : min (i : Int) (a.length : Int) = i := min_eq_left (by omega)
  have h3 : min 1 (a.length - i) = 1 := min_eq_left (by omega)
  simp only [h1, if_false, h2, Int.toNat_ofNat, h3]
  rw [List.eraseIdx_eq_take_drop_succ]
  congr 1
  rw [List.drop_eq_getElem_cons h]
  rfl

theorem splice1_ge {α : Type} (a : List α) (i : Int) (h : (a.length : Int) ≤ i) :
    splice1 a i = ([], a) := by
  unfold splice1
  have h1 : ¬ (i < 0) := by omega
  have h2 : min i (a.length : Int) = a.length := min_eq_right h
  simp only [h1, if_false, h2, Int.toNat_ofNat, Nat.sub_self, Nat.min_zero, List.take_zero,
    Nat.add_zero, List.take_append_drop]

theorem saveClick_items (st : State) (items : List CartItem) (saved : List Entry) (i : Int)
    (removed : List CartItem) (rest : List CartItem)
    (hcart : st.cart = .arr (items.map some)) (hsaved : st.saved = .arr saved)
    (hsplice : splice1 (items.map some) i = (removed.map some, rest.map some)) :
    ∃ t : Totals, saveClick st i =
      .done { st with cart := .arr (rest.map some),
                      saved := .arr (saved ++ [firstOf (removed.map some)]),
                      storedCart := .json (.arr (rest.map some)),
                      storedSaved := .json (.arr (saved ++ [firstOf (removed.map some)])),
                      shown := some t } := by
  obtain ⟨t, ht⟩ := writeCart_renderCart_items
    { st with cart := .arr (rest.map some),
              saved := .arr (saved ++ [firstOf (removed.map some)]),
              storedSaved := .json (.arr (saved ++ [firstOf (removed.map some)])) } rest rfl
  refine ⟨t, ?_⟩
  unfold saveClick
  simp only [hcart, hsaved, hsplice]
  rw [writeCart_items _ rest rfl]
  simp only [Outcome.andThen, writeSaved]
  rw [writeCart_items _ rest rfl] at ht
  simp only [Outcome.andThen] at ht
  exact ht

theorem map_some_eraseIdx (items : List CartItem) (i : Nat) :
    (items.map some).eraseIdx i = (items.eraseIdx i).map some := by
  induction items generalizing i with
  | nil => rfl
  | cons x rest ih =>
    cases i with
    | zero => rfl
    | succ j => simp only [List.map_cons, List.eraseIdx_cons_succ, ih]

theorem splice1_last {α : Type} (l : List α) (x : α) :
    splice1 (l ++ [x]) (l.length : Int) = ([x], l) := by
  have h := splice1_valid (l ++ [x]) l.length (by simp)
  rw [h]
  simp [List.eraseIdx_append_of_length_le]

theorem savedAddClick_item (st : State) (items : List CartItem) (saved rest : List Entry)
    (i : Int) (it : CartItem)
    (hcart : st.cart = .arr (items.map some)) (hsaved : st.saved = .arr saved)
    (hsplice : splice1 saved i = ([some it], rest)) :
    ∃ t : Totals, savedAddClick st i =
      .done { st with cart := .arr ((items ++ [it]).map some),
                      saved := .arr rest,
                      storedCart := .json (.arr ((items ++ [it]).map some)),
                      storedSaved := .json (.arr rest),
                      shown := some t } := by
  obtain ⟨t, ht⟩ := writeCart_renderCart_items
    { st with cart := .arr ((items ++ [it]).map some), saved := .arr rest,
              storedSaved := .json (.arr rest) } (items ++ [it]) rfl
  refine ⟨t, ?_⟩
  unfold savedAddClick
  simp only [hcart, hsaved, hsplice, firstOf]
  rw [show items.map some ++ [some it] = (items ++ [it]).map some by simp]
  rw [writeCart_items _ (items ++ [it]) rfl]
  simp only [Outcome.andThen, writeSaved]
  rw [writeCart_items _ (items ++ [it]) rfl] at ht
  simp only [Outcome.andThen] at ht
  exact ht

theorem eraseIdx_append_perm {α : Type} (l : List α) :
    ∀ (i : Nat) (h : i < l.length), (l.eraseIdx i ++ [l[i]]).Perm l := by
  induction l with
  | nil => intro i h; simp at h
  | cons x rest ih =>
    intro i h
    cases i with
    | zero => exact List.perm_append_singleton x rest
    | succ j =>
      simp only [List.eraseIdx_cons_succ, List.cons_append, List.getElem_cons_succ]
      exact List.Perm.cons x (ih j (by simpa using h))

/-- C9: on a cart of items, the save button of a valid row `i` followed by the
add-to-cart button of the last saved row ends with the cart holding the other
items in their old order followed by item `i` (a permutation of the old cart:
the same items with the same quantities) and with the saved list as it was. -/
theorem save_then_restore (st : State) (items : List CartItem) (saved : List Entry) (i : Nat)
    (hcart : st.cart = .arr (items.map some)) (hsaved : st.saved = .arr saved)
    (hi : i < items.length) :
    ∃ (it : CartItem) (st1 st2 : State), items[i]? = some it ∧
      saveClick st (i : Int) = .done st1 ∧
      st1.cart = .arr ((items.eraseIdx i).map some) ∧
      st1.saved = .arr (saved ++ [some it]) ∧
      savedAddClick st1 (saved.length : Int) = .done st2 ∧
      st2.cart = .arr ((items.eraseIdx i ++ [it]).map some) ∧
      st2.storedCart = .json st2.cart ∧
      (items.eraseIdx i ++ [it]).Perm items ∧
      (items.eraseIdx i).Sublist items ∧
      st2.saved = st.saved ∧ st2.storedSaved = .json st.saved := by
  have hsp : splice1 (items.map some) (i : Int) =
      ([items[i]].map some, (items.eraseIdx i).map some) := by
    rw [splice1_valid _ i (by simpa using hi), map_some_eraseIdx]
    simp
  obtain ⟨t1, h1⟩ := saveClick_items st items saved i [items[i]] (items.eraseIdx i)
    hcart hsaved hsp
  obtain ⟨t2, h2⟩ := savedAddClick_item
    { st with cart := .arr ((items.eraseIdx i).map some),
              saved := .arr (saved ++ [firstOf ([items[i]].map some)]),
              storedCart := .json (.arr ((items.eraseIdx i).map some)),
              storedSaved := .json (.arr (saved ++ [firstOf ([items[i]].map some)])),
              shown := some t1 }
    (items.eraseIdx i) (saved ++ [some items[i]]) saved saved.length items[i] rfl rfl
    (splice1_last saved (some items[i]))
  refine ⟨items[i], _, _, List.getElem?_eq_getElem hi, h1, rfl, rfl, h2, rfl, rfl, ?_, ?_,
    ?_, ?_⟩
  · exact eraseIdx_append_perm items i hi
  · exact List.eraseIdx_sublist items i
  · exact hsaved.symm
  · simp only [hsaved]

theorem save_then_restore_witness :
    ∃ (it : CartItem) (st1 st2 : State), sampleItems[0]? = some it ∧
      saveClick (stateWith sampleItems none) ((0 : Nat) : Int) = .done st1 ∧
      savedAddClick st1 (([] : List Entry).length : Int) = .done st2 ∧
      st2.cart = .arr ((sampleItems.eraseIdx 0 ++ [it]).map some) ∧
      st2.saved = (stateWith sampleItems none).saved := by
  obtain ⟨it, st1, st2, h0, h1, _, _, h2, h3, _, _, _, h4, _⟩ :=
    save_then_restore (stateWith sampleItems none) sampleItems [] 0 rfl rfl (by decide)
  exact ⟨it, st1, st2, h0, h1, h2, h3, h4⟩

theorem splice1_negative {α : Type} (a : List α) (i : Int) (h : i < 0) :
    splice1 a i = splice1 a (max ((a.length : Int) + i) 0) := by
  unfold splice1
  have h2 : ¬ (max ((a.length : Int) + i) 0 < 0) := by omega
  have h3 : min (max ((a.length : Int) + i) 0) (a.length : Int) = max ((a.length : Int) + i) 0 := by
    omega
  simp only [h, if_true, h2, if_false, h3]

/-- C10, as stated, fails: the save button with index -1 moves the last item of
the cart to the saved list, with an index equal to the length of the cart it
appends an `undefined` entry to the saved list, and the add-to-cart button of
the saved list with an index equal to the length of the saved list appends an
`undefined` entry to the cart. -/
theorem save_restore_invalid_index_not_noop :
    (saveClick (stateWith sampleItems none) (-1)).state.cart = .arr [] ∧
      (saveClick (stateWith sampleItems none) (-1)).state.saved =
        .arr [some { productId := "1", qty := 2 }] ∧
      (saveClick (stateWith sampleItems none) 1).state.saved = .arr [none] ∧
      (savedAddClick (stateWith sampleItems none) 0).state.cart =
        .arr [some { productId := "1", qty := 2 }, none] := by
  decide

/-- C10, amended: the save button and the add-to-cart button of the saved list do
not check their index. On a cart of items: an index at or beyond the length of
the source list removes nothing from it, yet an `undefined` entry is appended
to the other list and stored (for the saved list's button the badge update
then throws, with the cart already stored); a negative index `i` acts as the
index `max (length + i) 0`, counting from the end. -/
theorem save_restore_unchecked_index (st : State) (items : List CartItem) (saved : List Entry)
    (hcart : st.cart = .arr (items.map some)) (hsaved : st.saved = .arr saved) :
    (∀ i : Int, (items.length : Int) ≤ i →
      ∃ st' : State, saveClick st i = .done st' ∧ st'.cart = .arr (items.map some) ∧
        st'.saved = .arr (saved ++ [none]) ∧
        st'.storedSaved = .json (.arr (saved ++ [none]))) ∧
    (∀ i : Int, i < 0 → saveClick st i = saveClick st (max ((items.length : Int) + i) 0)) ∧
    (∀ i : Int, (saved.length : Int) ≤ i →
      savedAddClick st i =
        .threw { st with cart := .arr (items.map some ++ [none]),
                         storedCart := .json (.arr (items.map some ++ [none])) }) ∧
    (∀ i : Int, i < 0 →
      savedAddClick st i = savedAddClick st (max ((saved.length : Int) + i) 0)) := by
  refine ⟨?_, ?_, ?_, ?_⟩
  · intro i hi
    have hsp : splice1 (items.map some) i = (([] : List CartItem).map some, items.map some) := by
      rw [splice1_ge _ i (by simpa using hi)]; rfl
    obtain ⟨t, h⟩ := saveClick_items st items saved i [] items hcart hsaved hsp
    exact ⟨_, h, rfl, rfl, rfl⟩
  · intro i hi
    unfold saveClick
    simp only [hcart, splice1_negative (items.map some) i hi, List.length_map]
  · intro i hi
    unfold savedAddClick
    simp only [hsaved, splice1_ge saved i hi, firstOf, hcart, writeCart, badgeComputes,
      List.all_append, List.all_cons, Option.isSome_none, Bool.false_and, Bool.and_false,
      Outcome.andThen]
    simp [← hsaved]
  · intro i hi
    unfold savedAddClick
    simp only [hsaved, splice1_negative saved i hi]

theorem save_restore_unchecked_index_witness :
    ∃ st' : State, saveClick (stateWith sampleItems none) 7 = .done st' ∧
      st'.cart = .arr (sampleItems.map some) ∧ st'.saved = .arr ([] ++ [none]) ∧
      st'.storedSaved = .json (.arr ([] ++ [none])) :=
  (save_restore_unchecked_index (stateWith sampleItems none) sampleItems [] rfl rfl).1 7
    (by decide)

/-! ## Shuffling and the upsell grid -/

theorem set_head_perm {α : Type} (h y : α) :
    ∀ (t : List α) (j : Nat), t[j]? = some y → (y :: t.set j h).Perm (h :: t) := by
  intro t
  induction t with
  | nil => intro j hj; simp at hj
  | cons c t ih =>
    intro j hj
    cases j with
    | zero =>
      simp only [List.getElem?_cons_zero, Option.some.injEq] at hj
      subst hj
      exact List.Perm.swap _ _ _
    | succ k =>
      simp only [List.getElem?_cons_succ] at hj
      simp only [List.set_cons_succ]
      exact (List.Perm.swap c y _).trans (((ih k hj).cons c).trans (List.Perm.swap h c t))

theorem set_set_perm_lt {α : Type} :
    ∀ (a : List α) (i j : Nat) (x y : α), a[i]? = some x → a[j]? = some y → i < j →
      ((a.set i y).set j x).Perm a := by
  intro a
  induction a with
  | nil => intro i j x y hi; simp at hi
  | cons h t ih =>
    intro i j x y hi hj hlt
    obtain ⟨j', rfl⟩ : ∃ j', j = j' + 1 := ⟨j - 1, by omega⟩
    simp only [List.getElem?_cons_succ] at hj
    cases i with
    | zero =>
      simp only [List.getElem?_cons_zero, Option.some.injEq] at hi
      subst hi
      simp only [List.set_cons_zero, List.set_cons_succ]
      exact set_head_perm h y t j' hj
    | succ i' =>
      simp only [List.getElem?_cons_succ] at hi
      simp only [List.set_cons_succ]
      exact (ih i' j' x y hi hj (by omega)).cons h

theorem swap_perm {α : Type} (a : List α) (i j : Nat) : (swap a i j).Perm a := by
  unfold swap
  cases hi : a[i]? with
  | none => exact List.Perm.refl a
  | some x =>
    cases hj : a[j]? with
    | none => exact List.Perm.refl a
    | some y =>
      simp only
      rcases Nat.lt_trichotomy i j with h | h | h
      · exact set_set_perm_lt a i j x y hi hj h
      · subst h
        rw [hi] at hj
        cases hj
        rw [List.set_set]
        have hlt : i < a.length := (List.getElem?_eq_some.mp hi).1
        have hx : a[i] = x := (List.getElem?_eq_some.mp hi).2
        have hset : a.set i x = a := by
          apply List.ext_getElem? 
          intro n
          by_cases hn : i = n
          · subst hn; rw [List.getElem?_set_self hlt, hi]
          · rw [List.getElem?_set_ne hn]
        rw [hset]
      · have hlen : i < a.length := (List.getElem?_eq_some.mp hi).1
        rw [List.set_comm _ _ _ (by omega)]
        exact set_set_perm_lt a j i y x hj hi h

theorem shuffleFrom_perm {α : Type} (rand : Nat → Dyadic) :
    ∀ (i k : Nat) (a : List α), (shuffleFrom rand i k a).Perm a := by
  intro i
  induction i with
  | zero => intro k a; exact List.Perm.refl a
  | succ i ih =>
    intro k a
    unfold shuffleFrom
    exact (ih (k + 1) _).trans (swap_perm a _ _)

theorem shuffle_perm {α : Type} (rand : Nat → Dyadic) (a : List α) :
    (shuffle rand (some a)).Perm a :=
  shuffleFrom_perm rand _ _ a

theorem findIndexOf_items (pid : String) (items : List CartItem) :
    findIndexOf pid (items.map some) = .ok none ∧ (∀ x ∈ items, x.productId ≠ pid) ∨
      ∃ k, findIndexOf pid (items.map some) = .ok (some k) ∧ ∃ x ∈ items, x.productId = pid := by
  rcases first_match_split pid items with hno | ⟨pre, it, post, hsplit, hpre, hit⟩
  · exact Or.inl ⟨findIndexOf_none pid items hno, hno⟩
  · subst hsplit
    exact Or.inr ⟨pre.length, findIndexOf_first pid pre post it hpre hit, it, by simp, hit⟩

theorem notInCart_items (items : List CartItem) (p : Product) :
    notInCart (items.map some) p = .ok (items.all (fun c => decide (c.productId ≠ p.id))) := by
  unfold notInCart
  rcases findIndexOf_items p.id items with ⟨h, hno⟩ | ⟨k, h, x, hx, hxp⟩
  · rw [h]
    simp only
    congr 1
    symm
    rw [List.all_eq_true]
    intro c hc
    exact decide_eq_true (hno c hc)
  · rw [h]
    simp only
    congr 1
    symm
    rw [List.all_eq_false]
    exact ⟨x, hx, by simp [hxp]⟩

theorem filterPool_items (items : List CartItem) (pool : List Product) :
    filterPool (items.map some) pool =
      .ok (pool.filter (fun p => items.all (fun c => decide (c.productId ≠ p.id)))) := by
  induction pool with
  | nil => rfl
  | cons p rest ih =>
    simp only [filterPool, notInCart_items, ih, List.filter_cons]

theorem renderUpsell_items (shuffled products : List Product) (items : List CartItem)
    (rand : Nat → Dyadic) :
    ∃ (pool : List Product) (r : Nat → Dyadic),
      pool = (if shuffled.length ≠ 0 then shuffled else shuffle rand (some products)) ∧
      renderUpsell shuffled products (items.map some) rand =
        .ok ((shuffle r (some ((pool.filter
          (fun p => items.all (fun c => decide (c.productId ≠ p.id)))).take 8))).take
            (min 4 ((pool.filter
              (fun p => items.all (fun c => decide (c.productId ≠ p.id)))).take 8).length)) := by
  refine ⟨_, fun k => rand (k + (if shuffled.length ≠ 0 then 0 else products.length - 1)),
    rfl, ?_⟩
  unfold renderUpsell
  simp only [filterPool_items]

/-- C12: whatever the shuffled pool, the catalog and the random draws are, no
product the upsell grid shows for a cart of items has the id of an item of the
cart (ids compared as strings). -/
theorem upsell_excludes_cart (shuffled products : List Product) (items : List CartItem)
    (rand : Nat → Dyadic) :
    ∃ final : List Product,
      renderUpsell shuffled products (items.map some) rand = .ok final ∧
      ∀ p ∈ final, ∀ c ∈ items, c.productId ≠ p.id := by
  obtain ⟨pool, r, _, h⟩ := renderUpsell_items shuffled products items rand
  refine ⟨_, h, ?_⟩
  intro p hp c hc
  have h1 := List.mem_of_mem_take hp
  have h2 := (shuffle_perm r _).mem_iff.mp h1
  have h3 := List.mem_of_mem_take h2
  have h4 := (List.mem_filter.mp h3).2
  rw [List.all_eq_true] at h4
  exact of_decide_eq_true (h4 c hc)

/-- C13: for a loaded catalog, a cart of items and any random draws, the upsell
grid shows exactly `min 4 n` products, `n` being the number of catalog products
whose id is not in the cart; they are taken, without repetition, from the first
8 such products of the shuffled pool, which is a permutation of the catalog,
so no catalog entry is shown twice. The pool is the one the code filters:
`SHUFFLED_PRODUCTS` when it is not empty (the shuffle made at load time, for a
catalog that is not empty), a fresh shuffle of `PRODUCTS` otherwise. -/
theorem upsell_count (catalog : List Product) (items : List CartItem)
    (rand0 rand : Nat → Dyadic) :
    ∃ pool final : List Product,
      pool = (if (loadProducts (some catalog) rand0).2.length ≠ 0
        then (loadProducts (some catalog) rand0).2
        else shuffle rand (some (loadProducts (some catalog) rand0).1)) ∧
      (catalog ≠ [] → pool = shuffle rand0 (some catalog)) ∧
      pool.Perm catalog ∧
      renderUpsell (loadProducts (some catalog) rand0).2 (loadProducts (some catalog) rand0).1
        (items.map some) rand = .ok final ∧
      final.length = min 4 (catalog.filter
        (fun p => items.all (fun c => decide (c.productId ≠ p.id)))).length ∧
      final.Subperm ((pool.filter
        (fun p => items.all (fun c => decide (c.productId ≠ p.id)))).take 8) ∧
      final.Subperm catalog := by
  obtain ⟨pool, r, hpool, h⟩ := renderUpsell_items (loadProducts (some catalog) rand0).2
    (loadProducts (some catalog) rand0).1 items rand
  have hperm : pool.Perm catalog := by
    rw [hpool]
    simp only [loadProducts]
    split_ifs
    · exact shuffle_perm rand0 catalog
    · exact shuffle_perm rand catalog
  have hpick := shuffle_perm r ((pool.filter
    (fun p => items.all (fun c => decide (c.productId ≠ p.id)))).take 8)
  have hsub1 : ((shuffle r (some ((pool.filter
      (fun p => items.all (fun c => decide (c.productId ≠ p.id)))).take 8))).take
        (min 4 ((pool.filter
          (fun p => items.all (fun c => decide (c.productId ≠ p.id)))).take 8).length)).Subperm
      ((pool.filter (fun p => items.all (fun c => decide (c.productId ≠ p.id)))).take 8) :=
    (List.take_sublist _ _).subperm.trans hpick.subperm
  have hload : catalog ≠ [] → pool = shuffle rand0 (some catalog) := by
    intro hne
    have hlen : (shuffle rand0 (some catalog)).length ≠ 0 := by
      rw [(shuffle_perm rand0 catalog).length_eq]
      exact fun h0 => hne (List.length_eq_zero.mp h0)
    rw [hpool]
    simp only [loadProducts]
    rw [if_pos hlen]
  refine ⟨pool, _, hpool, hload, hperm, h, ?_, hsub1, ?_⟩
  · have hlen := (hperm.filter (fun p => items.all (fun c => decide (c.productId ≠ p.id)))).length_eq
    rw [List.length_take, hpick.length_eq, List.length_take, ← hlen]
    omega
  · exact hsub1.trans (((List.take_sublist _ _).trans (List.filter_sublist _)).subperm.trans
      hperm.subperm)

/-! ## Removing a row -/

/-- C11, as stated, fails: the remove button with index -1 removes the last item
of the cart instead of leaving the cart as it is. -/
theorem removeClick_negative_index_removes :
    (removeClick (stateWith sampleItems none) (-1)).state.cart = .arr [] ∧
      (stateWith sampleItems none).cart = .arr [some { productId := "1", qty := 2 }] := by
  decide

/-- C11, amended: on a cart of items the remove button with a valid index `i`
removes exactly item `i`, keeps the other items in their order and stores the
cart; with an index at or beyond the length it leaves the cart as it is; with
a negative index `i` it acts as with the index `max (length + i) 0`, counting
from the end. -/
theorem removeClick_index (st : State) (items : List CartItem)
    (hcart : st.cart = .arr (items.map some)) :
    (∀ i : Nat, i < items.length →
      ∃ st' : State, removeClick st (i : Int) = .done st' ∧
        st'.cart = .arr ((items.eraseIdx i).map some) ∧ st'.storedCart = .json st'.cart ∧
        (items.eraseIdx i).Sublist items ∧ (items.eraseIdx i).length + 1 = items.length) ∧
    (∀ i : Int, (items.length : Int) ≤ i →
      ∃ st' : State, removeClick st i = .done st' ∧ st'.cart = st.cart) ∧
    (∀ i : Int, i < 0 → removeClick st i = removeClick st (max ((items.length : Int) + i) 0)) := by
  refine ⟨?_, ?_, ?_⟩
  · intro i hi
    obtain ⟨t, ht⟩ := writeCart_renderCart_items
      { st with cart := .arr ((items.eraseIdx i).map some) } (items.eraseIdx i) rfl
    refine ⟨{ st with cart := .arr ((items.eraseIdx i).map some),
                      storedCart := .json (.arr ((items.eraseIdx i).map some)),
                      saved := loadKey st.storedSaved, shown := some t },
      ?_, rfl, rfl, List.eraseIdx_sublist items i, ?_⟩
    · unfold removeClick
      simp only [hcart, splice1_valid (items.map some) i (by simpa using hi), map_some_eraseIdx]
      exact ht
    · rw [List.length_eraseIdx_of_lt hi]
      omega
  · intro i hi
    obtain ⟨t, ht⟩ := writeCart_renderCart_items { st with cart := .arr (items.map some) } items rfl
    refine ⟨{ st with cart := .arr (items.map some),
                      storedCart := .json (.arr (items.map some)),
                      saved := loadKey st.storedSaved, shown := some t }, ?_, hcart.symm⟩
    unfold removeClick
    simp only [hcart, splice1_ge (items.map some) i (by simpa using hi)]
    exact ht
  · intro i hi
    unfold removeClick
    simp only [hcart, splice1_negative (items.map some) i hi, List.length_map]

theorem removeClick_index_witness :
    ∃ st' : State, removeClick (stateWith sampleItems none) ((0 : Nat) : Int) = .done st' ∧
      st'.cart = .arr ((sampleItems.eraseIdx 0).map some) := by
  obtain ⟨st', h1, h2, _⟩ :=
    (removeClick_index (stateWith sampleItems none) sampleItems rfl).1 0 (by decide)
  exact ⟨st', h1, h2⟩

/-! ## Checkout -/

/-- C14: the checkout click on a cart with no item ends with the empty-cart
alert: no message is built or handed off, and the cart, the saved list, the
applied promo and both storage keys are left as they were. -/
theorem checkout_empty (fmt : Int → String) (st : State) (hcart : st.cart = .arr []) :
    checkoutClick fmt st = (st, .emptyAlert) := by
  unfold checkoutClick
  simp only [hcart]

theorem checkout_empty_witness :
    checkoutClick (fun n => toString n) (stateWith [] none) = (stateWith [] none, .emptyAlert) :=
  checkout_empty (fun n => toString n) (stateWith [] none) rfl

/-! ## Loading -/

/-- C16 on the code: a stored text that parses to a JSON value which is not an
array (`"null"`, `"{}"`) makes `readCart` leave `CART` as that value, not as an
empty cart, and `renderCart` then throws; an absent key, an unparsable text and
a stored array are read as the claim says. -/
theorem readCart_non_array :
    (readCart { stateWith [] none with storedCart := .json .other }).cart = .other ∧
      (readCart { stateWith [] none with storedCart := .json .other }).cart ≠ .arr [] ∧
      renderCart { stateWith [] none with storedCart := .json .other } =
        .threw (readCart { stateWith [] none with storedCart := .json .other }) ∧
      addToCart sampleProducts (.json .other) "1" (some (.int 1)) = .threw (.json .other) ∧
      (∀ st : State, st.storedCart = .absent → (readCart st).cart = .arr []) ∧
      (∀ st : State, st.storedCart = .unparsable → (readCart st).cart = .arr []) ∧
      (∀ (st : State) (entries : List Entry), st.storedCart = .json (.arr entries) →
        (readCart st).cart = .arr entries) := by
  refine ⟨by decide, by decide, by decide, by decide, ?_, ?_, ?_⟩
  · intro st h; simp only [readCart, h, loadKey]
  · intro st h; simp only [readCart, h, loadKey]
  · intro st entries h; simp only [readCart, h, loadKey]

theorem join_cons (x : String) (xs : List String) : String.join (x :: xs) = x ++ String.join xs := by
  apply String.ext
  simp [String.join_eq]

theorem checkoutLines_items (fmt : Int → String) (products : List Product)
    (items : List CartItem) :
    ∀ msg : String, checkoutLines fmt products (items.map some) msg =
      .ok (msg ++ String.join (items.map (fun it =>
        "- " ++ titleOf products it.productId ++ " (x" ++ toString it.qty ++ "): "
          ++ priceText fmt products it.productId ++ "%0A"))) := by
  induction items with
  | nil => intro msg; simp [checkoutLines, String.join]
  | cons it rest ih =>
    intro msg
    simp only [List.map_cons, checkoutLines, ih, join_cons, String.append_assoc]

theorem subtotalLoop_ok_items (products : List Product) :
    ∀ (entries : List Entry) (acc v : Int), subtotalLoop products entries acc = .ok v →
      ∃ items : List CartItem, entries = items.map some := by
  intro entries
  induction entries with
  | nil => intro acc v _; exact ⟨[], rfl⟩
  | cons e rest ih =>
    intro acc v h
    cases e with
    | none => simp [subtotalLoop] at h
    | some it =>
      simp only [subtotalLoop] at h
      obtain ⟨items, hitems⟩ := ih _ _ h
      exact ⟨it :: items, by simp [hitems]⟩

theorem renderCart_done (s st : State) (h : renderCart s = .done st) :
    ∃ items : List CartItem, loadKey s.storedCart = .arr (items.map some) ∧
      st = { readCart s with shown := some (computeTotals s.promo
        ((items.map (fun it => priceOf s.products it.productId * it.qty)).sum)) } := by
  cases hl : loadKey s.storedCart with
  | other =>
    unfold renderCart at h
    simp [readCart, hl] at h
  | arr entries =>
    cases hsub : subtotalLoop s.products entries 0 with
    | error e =>
      unfold renderCart at h
      simp [readCart, hl, hsub] at h
    | ok v =>
      obtain ⟨items, hitems⟩ := subtotalLoop_ok_items s.products entries 0 v hsub
      subst hitems
      refine ⟨items, rfl, ?_⟩
      rw [renderCart_items s items hl] at h
      exact (Outcome.done.inj h).symm

/-- C15: in a state left by `renderCart`, the checkout click on a non-empty cart
hands off the message made of the greeting, one line per cart item in cart
order with the catalog title (or "Produit"), the quantity and the formatted
unit price, and the total of the pricing rule for this cart and promo as
formatted by the locale (`fmt`); for two units of product "A" priced 500 the
lines are `- A (x2): ` followed by the formatted 500, and the total is the
formatted 1000 + 2500. -/
theorem checkout_message (fmt : Int → String) (s st : State)
    (hrender : renderCart s = .done st) :
    ∃ items : List CartItem, st.cart = .arr (items.map some) ∧
      (items ≠ [] →
        checkoutClick fmt st = (st, .opened
          ("Bonjour, je souhaite commander :%0A" ++
            String.join (items.map (fun it =>
              "- " ++ titleOf st.products it.productId ++ " (x" ++ toString it.qty ++ "): "
                ++ priceText fmt st.products it.productId ++ "%0A")) ++
            ("%0ATotal: " ++ (fmt (computeTotals st.promo
              ((items.map (fun it => priceOf st.products it.productId * it.qty)).sum)).total
                ++ " FCFA") ++ "%0AMerci.")))) ∧
      (s = stateWith sampleItems none →
        checkoutClick fmt st = (st, .opened
          ("Bonjour, je souhaite commander :%0A- A (x2): " ++ fmt 500 ++ " FCFA%0A%0ATotal: "
            ++ fmt (1000 + 2500) ++ " FCFA%0AMerci."))) := by
  obtain ⟨items, hl, hst⟩ := renderCart_done s st hrender
  have hcart : st.cart = .arr (items.map some) := by rw [hst]; simp only [readCart, hl]
  have hprod : st.products = s.products := by rw [hst]; rfl
  have hpromo : st.promo = s.promo := by rw [hst]; rfl
  have hshown : st.shown = some (computeTotals s.promo
      ((items.map (fun it => priceOf s.products it.productId * it.qty)).sum)) := by
    rw [hst]
  have hgen : items ≠ [] →
      checkoutClick fmt st = (st, .opened
        ("Bonjour, je souhaite commander :%0A" ++
          String.join (items.map (fun it =>
            "- " ++ titleOf st.products it.productId ++ " (x" ++ toString it.qty ++ "): "
              ++ priceText fmt st.products it.productId ++ "%0A")) ++
          ("%0ATotal: " ++ (fmt (computeTotals st.promo
            ((items.map (fun it => priceOf st.products it.productId * it.qty)).sum)).total
              ++ " FCFA") ++ "%0AMerci."))) := by
    intro hne
    obtain ⟨it, rest, rfl⟩ : ∃ it rest, items = it :: rest := by
      cases items with
      | nil => exact absurd rfl hne
      | cons it rest => exact ⟨it, rest, rfl⟩
    unfold checkoutClick
    rw [hcart]
    simp only [List.map_cons]
    have hlines := checkoutLines_items fmt st.products (it :: rest)
      "Bonjour, je souhaite commander :%0A"
    simp only [List.map_cons] at hlines
    rw [hlines]
    simp only [totalText, hshown, format, hprod, hpromo, List.map_cons]
  refine ⟨items, hcart, hgen, ?_⟩
  intro hs
  subst hs
  have hitems : items = sampleItems := by
    have h1 : loadKey (stateWith sampleItems none).storedCart = .arr (sampleItems.map some) := rfl
    rw [h1] at hl
    have h2 := JsList.arr.inj hl
    exact (List.map_injective_iff.mpr (Option.some_injective _) h2).symm
  subst hitems
  rw [hgen (by decide)]
  rw [hprod, hpromo]
  have e1 : String.join (sampleItems.map (fun it =>
      "- " ++ titleOf (stateWith sampleItems none).products it.productId ++ " (x"
        ++ toString it.qty ++ "): "
        ++ priceText fmt (stateWith sampleItems none).products it.productId ++ "%0A"))
      = "- A (x2): " ++ (fmt 500 ++ " FCFA") ++ "%0A" := by
    simp [sampleItems, join_cons, String.join, stateWith, titleOf, priceText, findProduct,
      sampleProducts, format]
    have t2 : toString (2 : Int) = "2" := by decide
    have t3 : "- A (x" ++ "2" ++ "): " = "- A (x2): " := by decide
    rw [t2, t3]
  have e2 : (computeTotals (stateWith sampleItems none).promo
      ((sampleItems.map (fun it =>
        priceOf (stateWith sampleItems none).products it.productId * it.qty)).sum)).total
      = 1000 + 2500 := by decide
  rw [e1, e2]
  have a1 : "Bonjour, je souhaite commander :%0A- A (x2): " =
      "Bonjour, je souhaite commander :%0A" ++ "- A (x2): " := by decide
  have a2 : " FCFA%0A%0ATotal: " = " FCFA" ++ ("%0A" ++ "%0ATotal: ") := by decide
  have a3 : " FCFA%0AMerci." = " FCFA" ++ "%0AMerci." := by decide
  rw [a1, a2, a3]
  simp only [String.append_assoc]

theorem checkout_message_witness :
    ∃ st : State, renderCart (stateWith sampleItems none) = .done st ∧
      checkoutClick (fun n => toString n) st = (st, .opened
        ("Bonjour, je souhaite commander :%0A- A (x2): " ++ toString (500 : Int)
          ++ " FCFA%0A%0ATotal: " ++ toString ((1000 : Int) + 2500) ++ " FCFA%0AMerci.")) := by
  have h := renderCart_items (stateWith sampleItems none) sampleItems rfl
  obtain ⟨_, _, _, h3⟩ := checkout_message (fun n => toString n) _ _ h
  exact ⟨_, h, h3 rfl⟩

/-! ## Items without a catalog entry -/

/-- C20, as stated, fails: the title of a cart row whose product is not in the
catalog is the placeholder "Produit", not the empty title. -/
theorem unknown_product_title_is_placeholder :
    (rowOf [] { productId := "7", qty := 3 }).title = "Produit" ∧
      (rowOf [] { productId := "7", qty := 3 }).title ≠ "" := by
  decide

/-- C20, amended: for a cart item whose id matches no catalog entry (every item,
when the catalog is empty) the row gets the placeholder title "Produit", the
price 0 and the row subtotal 0, the checkout line shows "—" as its price,
rendering and building the checkout lines go through for every stored cart of
items, and the item adds nothing to the subtotal. -/
theorem unknown_product_defaults (products : List Product) (it : CartItem)
    (hno : findProduct products it.productId = none) :
    rowOf products it = { title := "Produit", price := 0, rowSubtotal := 0 } ∧
    (∀ fmt : Int → String, priceText fmt products it.productId = "—") ∧
    (∀ pid : String, findProduct [] pid = none) ∧
    (∀ (st : State) (pre post : List CartItem), st.products = products →
      loadKey st.storedCart = .arr ((pre ++ it :: post).map some) →
      ∃ (t : Totals) (rows : List Row),
        renderCart st = .done { readCart st with shown := some t } ∧
        cartRows products ((pre ++ it :: post).map some) = .ok rows ∧
        (∀ (fmt : Int → String) (msg : String), ∃ text : String,
          checkoutLines fmt products ((pre ++ it :: post).map some) msg = .ok text) ∧
        t.subtotal =
          ((pre ++ post).map (fun c => priceOf products c.productId * c.qty)).sum) := by
  have hprice : priceOf products it.productId = 0 := by
    unfold priceOf
    rw [hno]
  refine ⟨?_, ?_, fun pid => rfl, ?_⟩
  · unfold rowOf titleOf
    rw [hprice, hno]
    simp
  · intro fmt
    unfold priceText
    rw [hno]
    rfl
  · intro st pre post hprod hcart
    have hrows : ∀ items : List CartItem, ∃ rows, cartRows products (items.map some) = .ok rows := by
      intro items
      induction items with
      | nil => exact ⟨[], rfl⟩
      | cons c rest ih =>
        obtain ⟨rows, hr⟩ := ih
        exact ⟨rowOf products c :: rows, by simp only [List.map_cons, cartRows, hr]⟩
    obtain ⟨rows, hr⟩ := hrows (pre ++ it :: post)
    refine ⟨_, rows, renderCart_items st (pre ++ it :: post) hcart, hr, ?_, ?_⟩
    · intro fmt msg
      exact ⟨_, checkoutLines_items fmt products (pre ++ it :: post) msg⟩
    · simp only [computeTotals, hprod, List.map_append, List.map_cons, List.sum_append,
        List.sum_cons, hprice, Int.zero_mul, Int.zero_add]

theorem unknown_product_defaults_witness :
    rowOf sampleProducts { productId := "7", qty := 3 } =
      { title := "Produit", price := 0, rowSubtotal := 0 } :=
  (unknown_product_defaults sampleProducts { productId := "7", qty := 3 } (by decide)).1

/-! ## What the handlers leave behind -/

theorem renderCart_state (s : State) :
    (renderCart s).state.cart = loadKey s.storedCart ∧
    (renderCart s).state.saved = loadKey s.storedSaved ∧
    (renderCart s).state.storedCart = s.storedCart ∧
    (renderCart s).state.storedSaved = s.storedSaved := by
  unfold renderCart
  simp only [readCart]
  cases loadKey s.storedCart with
  | other => exact ⟨rfl, rfl, rfl, rfl⟩
  | arr entries =>
    simp only
    cases subtotalLoop s.products entries 0 <;> exact ⟨rfl, rfl, rfl, rfl⟩

theorem write_render_state (s : State) :
    ((writeCart s).andThen renderCart).state.cart = s.cart ∧
    ((writeCart s).andThen renderCart).state.storedCart = .json s.cart ∧
    (((writeCart s).andThen renderCart).state.saved = s.saved ∨
      ((writeCart s).andThen renderCart).state.saved = loadKey s.storedSaved) ∧
    ((writeCart s).andThen renderCart).state.storedSaved = s.storedSaved := by
  unfold writeCart
  by_cases hb : badgeComputes s.cart = true
  · simp only [hb, if_true, Outcome.andThen]
    obtain ⟨h1, h2, h3, h4⟩ := renderCart_state { s with storedCart := .json s.cart }
    exact ⟨h1, h3, Or.inr h2, h4⟩
  · simp only [hb, Outcome.andThen]
    exact ⟨rfl, rfl, Or.inl rfl, rfl⟩

theorem write_both_render_state (s : State) :
    (((writeCart s).andThen (fun x => .done (writeSaved x))).andThen renderCart).state.cart
      = s.cart ∧
    (((writeCart s).andThen (fun x => .done (writeSaved x))).andThen renderCart).state.saved
      = s.saved := by
  unfold writeCart
  by_cases hb : badgeComputes s.cart = true
  · simp only [hb, if_true, Outcome.andThen, writeSaved]
    obtain ⟨h1, h2, _, _⟩ := renderCart_state
      { s with storedCart := .json s.cart, storedSaved := .json s.saved }
    exact ⟨h1, h2⟩
  · simp only [hb, Outcome.andThen]
    exact ⟨rfl, rfl⟩

theorem readCart_fixed (st : State) (hc : st.cart = loadKey st.storedCart)
    (hs : st.saved = loadKey st.storedSaved) : readCart st = st := by
  cases st
  simp only [readCart] at *
  simp only [← hc, ← hs]

theorem renderCart_done_state (s st' : State) (h : renderCart s = .done st') :
    st'.cart = loadKey s.storedCart ∧ st'.saved = loadKey s.storedSaved ∧
    st'.storedCart = s.storedCart ∧ st'.storedSaved = s.storedSaved := by
  have := renderCart_state s
  rw [h] at this
  exact this

theorem write_render_done (s st' : State) (h : (writeCart s).andThen renderCart = .done st') :
    st'.cart = s.cart ∧ st'.storedCart = .json st'.cart ∧ readCart st' = st' ∧
    st'.saved = loadKey s.storedSaved ∧ st'.storedSaved = s.storedSaved := by
  unfold writeCart at h
  by_cases hb : badgeComputes s.cart = true
  · simp only [hb, if_true, Outcome.andThen] at h
    obtain ⟨h1, h2, h3, h4⟩ := renderCart_done_state _ _ h
    have h1' : st'.cart = s.cart := h1
    have h2' : st'.saved = loadKey s.storedSaved := h2
    have h3' : st'.storedCart = .json s.cart := h3
    have h4' : st'.storedSaved = s.storedSaved := h4
    exact ⟨h1', by rw [h3', h1'], readCart_fixed st' (by rw [h3', h1']; rfl) (by rw [h4', h2']),
      h2', h4'⟩
  · simp only [hb, Outcome.andThen] at h
    cases h

theorem write_both_render_done (s st' : State)
    (h : ((writeCart s).andThen (fun x => .done (writeSaved x))).andThen renderCart = .done st') :
    st'.cart = s.cart ∧ st'.saved = s.saved ∧ st'.storedCart = .json st'.cart ∧
    st'.storedSaved = .json st'.saved ∧ readCart st' = st' := by
  unfold writeCart at h
  by_cases hb : badgeComputes s.cart = true
  · simp only [hb, if_true, Outcome.andThen, writeSaved] at h
    obtain ⟨h1, h2, h3, h4⟩ := renderCart_done_state _ _ h
    have h1' : st'.cart = s.cart := h1
    have h2' : st'.saved = s.saved := h2
    have h3' : st'.storedCart = .json s.cart := h3
    have h4' : st'.storedSaved = .json s.saved := h4
    exact ⟨h1', h2', by rw [h3', h1'], by rw [h4', h2'],
      readCart_fixed st' (by rw [h3', h1']; rfl) (by rw [h4', h2']; rfl)⟩
  · simp only [hb, Outcome.andThen] at h
    cases h

theorem setQty_chain_done (st st' : State) (idx v : Int)
    (h : ((setQtyAt st idx v).andThen writeCart).andThen renderCart = .done st') :
    st'.storedCart = .json st'.cart ∧ readCart st' = st' := by
  cases hq : setQtyAt st idx v with
  | threw s1 => rw [hq] at h; simp only [Outcome.andThen] at h; cases h
  | done s1 =>
    rw [hq] at h
    simp only [Outcome.andThen] at h
    obtain ⟨_, h2, h3, _⟩ := write_render_done s1 st' h
    exact ⟨h2, h3⟩

/-- C19: whenever a handler runs to its end, the storage holds what is in memory.
After the quantity handlers, the remove button, the save button, the
add-to-cart button of the saved list and the upsell button, the cart key holds
the whole cart and `readCart` reproduces the state; after the two buttons that
move an item, and after the saved list's remove button, the saved key holds
the whole saved list; `addToCart` of the product page stores the cart it
built. -/
theorem handlers_persist (st st' : State) :
    (∀ idx value, qtyChange st idx value = .done st' →
      st'.storedCart = .json st'.cart ∧ readCart st' = st') ∧
    (∀ idx value, qtyMinus st idx value = .done st' →
      st'.storedCart = .json st'.cart ∧ readCart st' = st') ∧
    (∀ idx value, qtyPlus st idx value = .done st' →
      st'.storedCart = .json st'.cart ∧ readCart st' = st') ∧
    (∀ i, removeClick st i = .done st' →
      st'.storedCart = .json st'.cart ∧ readCart st' = st') ∧
    (∀ i, saveClick st i = .done st' →
      st'.storedCart = .json st'.cart ∧ st'.storedSaved = .json st'.saved ∧
        readCart st' = st') ∧
    (∀ i, savedAddClick st i = .done st' →
      st'.storedCart = .json st'.cart ∧ st'.storedSaved = .json st'.saved ∧
        readCart st' = st') ∧
    (∀ id, upsellAddClick st id = .done st' →
      st'.storedCart = .json st'.cart ∧ readCart st' = st') ∧
    (∀ i, savedRemoveClick st i = .done st' →
      st'.storedSaved = .json st'.saved ∧ st'.cart = st.cart ∧
        st'.storedCart = st.storedCart ∧
        (st.cart = loadKey st.storedCart → readCart st' = st')) ∧
    (∀ products cartKey pid qty stored, addToCart products cartKey pid qty = .stored stored →
      ∃ cart : List Entry, stored = .json (.arr cart) ∧ loadKey stored = .arr cart) := by
  refine ⟨?_, ?_, ?_, ?_, ?_, ?_, ?_, ?_, ?_⟩
  · intro idx value h
    exact setQty_chain_done st st' idx _ h
  · intro idx value h
    exact setQty_chain_done st st' idx _ h
  · intro idx value h
    exact setQty_chain_done st st' idx _ h
  · intro i h
    unfold removeClick at h
    cases hc : st.cart with
    | other => rw [hc] at h; cases h
    | arr entries =>
      rw [hc] at h
      obtain ⟨_, h2, h3, _⟩ := write_render_done _ st' h
      exact ⟨h2, h3⟩
  · intro i h
    unfold saveClick at h
    cases hc : st.cart with
    | other => rw [hc] at h; cases h
    | arr entries =>
      rw [hc] at h
      simp only at h
      cases hs : st.saved with
      | other => rw [hs] at h; cases h
      | arr saved =>
        rw [hs] at h
        obtain ⟨_, _, h3, h4, h5⟩ := write_both_render_done _ st' h
        exact ⟨h3, h4, h5⟩
  · intro i h
    unfold savedAddClick at h
    cases hs : st.saved with
    | other => rw [hs] at h; cases h
    | arr saved =>
      rw [hs] at h
      simp only at h
      cases hc : st.cart with
      | other => rw [hc] at h; cases h
      | arr entries =>
        rw [hc] at h
        obtain ⟨_, _, h3, h4, h5⟩ := write_both_render_done _ st' h
        exact ⟨h3, h4, h5⟩
  · intro id h
    unfold upsellAddClick at h
    cases hc : st.cart with
    | other => rw [hc] at h; cases h
    | arr entries =>
      rw [hc] at h
      simp only at h
      cases hf : findIndexOf id entries with
      | error e => rw [hf] at h; cases h
      | ok r =>
        rw [hf] at h
        cases r with
        | none =>
          obtain ⟨_, h2, h3, _⟩ := write_render_done _ st' h
          exact ⟨h2, h3⟩
        | some k =>
          obtain ⟨_, h2, h3, _⟩ := write_render_done _ st' h
          exact ⟨h2, h3⟩
  · intro i h
    unfold savedRemoveClick at h
    cases hs : st.saved with
    | other => rw [hs] at h; cases h
    | arr saved =>
      rw [hs] at h
      cases h
      refine ⟨rfl, rfl, rfl, ?_⟩
      intro hsync
      exact readCart_fixed _ hsync rfl
  · intro products cartKey pid qty stored h
    unfold addToCart at h
    cases hp : findProduct products pid with
    | none => rw [hp] at h; cases h
    | some p =>
      rw [hp] at h
      simp only at h
      cases hl : loadKey cartKey with
      | other => rw [hl] at h; cases h
      | arr cart =>
        rw [hl] at h
        simp only at h
        cases hf : findIndexOf pid cart with
        | error e => rw [hf] at h; cases h
        | ok r =>
          rw [hf] at h
          cases r with
          | none =>
            simp only [saveCart] at h
            split_ifs at h
            cases h
            exact ⟨_, rfl, rfl⟩
          | some k =>
            simp only [saveCart] at h
            split_ifs at h
            cases h
            exact ⟨_, rfl, rfl⟩

theorem handlers_persist_witness :
    ∃ st' : State, removeClick (stateWith sampleItems none) 0 = .done st' ∧
      st'.storedCart = .json st'.cart ∧ readCart st' = st' :=
  ⟨_, rfl, (handlers_persist (stateWith sampleItems none) _).2.2.2.1 0 rfl⟩

/-! ## Quantities -/

theorem qtyOk_arr (es : List Entry) :
    qtyOk (.arr es) ↔ ∀ it : CartItem, some it ∈ es → 1 ≤ it.qty := by
  unfold qtyOk itemsOf
  simp only [List.mem_filterMap, id]
  constructor
  · intro h it hit
    exact h it ⟨some it, hit, rfl⟩
  · rintro h it ⟨e, he, rfl⟩
    exact h it he

theorem splice1_decomp {α : Type} (a : List α) (i : Int) :
    ∃ l1 l2 : List α, a = l1 ++ (splice1 a i).1 ++ l2 ∧ (splice1 a i).2 = l1 ++ l2 ∧
      (splice1 a i).1.length ≤ 1 := by
  unfold splice1
  simp only
  generalize (if i < 0 then max ((a.length : Int) + i) 0 else min i (a.length : Int)).toNat = s
  refine ⟨a.take s, a.drop (s + min 1 (a.length - s)), ?_, rfl, ?_⟩
  · rw [List.append_assoc, ← List.drop_drop, List.take_append_drop, List.take_append_drop]
  · rw [List.length_take]
    omega

theorem firstOf_mem (r : List Entry) (x : CartItem) (h : firstOf r = some x) : some x ∈ r := by
  cases r with
  | nil => cases h
  | cons e rest =>
    simp only [firstOf] at h
    rw [h]
    exact List.mem_cons_self _ _

theorem modifyQtyAt_mem (f : Int → Int) (x : CartItem) :
    ∀ (es : List Entry) (k : Nat), some x ∈ modifyQtyAt f es k →
      some x ∈ es ∨ ∃ y : CartItem, some y ∈ es ∧ x = { y with qty := f y.qty } := by
  intro es
  induction es with
  | nil => intro k h; simp [modifyQtyAt] at h
  | cons e rest ih =>
    intro k h
    cases k with
    | zero =>
      simp only [modifyQtyAt, List.mem_cons] at h
      rcases h with h | h
      · cases e with
        | none => cases h
        | some y =>
          simp only [Option.map, Option.some.injEq] at h
          exact Or.inr ⟨y, List.mem_cons_self _ _, h⟩
      · exact Or.inl (List.mem_cons_of_mem _ h)
    | succ k =>
      simp only [modifyQtyAt, List.mem_cons] at h
      rcases h with h | h
      · exact Or.inl (h ▸ List.mem_cons_self _ _)
      · rcases ih k h with h1 | ⟨y, hy, hx⟩
        · exact Or.inl (List.mem_cons_of_mem _ h1)
        · exact Or.inr ⟨y, List.mem_cons_of_mem _ hy, hx⟩

theorem setQty_chain_qtyOk (st : State) (idx v : Int) (hc : qtyOk st.cart) (hv : 1 ≤ v) :
    qtyOk (((setQtyAt st idx v).andThen writeCart).andThen renderCart).state.cart := by
  unfold setQtyAt
  cases hcart : st.cart with
  | other => simp only [Outcome.andThen, Outcome.state]; exact hc
  | arr es =>
    simp only
    rw [hcart] at hc
    cases he : entryAt es idx with
    | none => simp only [Outcome.andThen, Outcome.state, hcart]; exact hc
    | some e =>
      cases e with
      | none => simp only [Outcome.andThen, Outcome.state, hcart]; exact hc
      | some it =>
        change qtyOk ((writeCart _).andThen renderCart).state.cart
        rw [(write_render_state _).1]
        rw [qtyOk_arr] at hc ⊢
        intro x hx
        rcases List.mem_or_eq_of_mem_set hx with h | h
        · exact hc x h
        · simp only [Option.some.injEq] at h
          rw [h]
          exact hv

theorem removeClick_qtyOk (st : State) (i : Int) (hc : qtyOk st.cart) :
    qtyOk (removeClick st i).state.cart := by
  unfold removeClick
  cases hcart : st.cart with
  | other => simp only [Outcome.state]; exact hc
  | arr es =>
    simp only
    rw [(write_render_state _).1]
    rw [hcart] at hc
    obtain ⟨l1, l2, h1, h2, _⟩ := splice1_decomp es i
    rw [qtyOk_arr] at hc ⊢
    intro x hx
    apply hc x
    simp only [h2] at hx
    rw [h1]
    simp only [List.mem_append] at hx ⊢
    tauto

theorem saveClick_qtyOk (st : State) (i : Int) (hc : qtyOk st.cart) :
    qtyOk (saveClick st i).state.cart := by
  unfold saveClick
  cases hcart : st.cart with
  | other => simp only [Outcome.state]; exact hc
  | arr es =>
    rw [hcart] at hc
    have hrest : qtyOk (.arr (splice1 es i).2) := by
      obtain ⟨l1, l2, h1, h2, _⟩ := splice1_decomp es i
      rw [qtyOk_arr] at hc ⊢
      intro x hx
      apply hc x
      simp only [h2] at hx
      rw [h1]
      simp only [List.mem_append] at hx ⊢
      tauto
    simp only
    cases hs : st.saved with
    | other => simp only [Outcome.state]; exact hrest
    | arr saved =>
      simp only
      rw [(write_both_render_state _).1]
      exact hrest

theorem savedAddClick_qtyOk (st : State) (i : Int) (hc : qtyOk st.cart) (hs : qtyOk st.saved) :
    qtyOk (savedAddClick st i).state.cart := by
  unfold savedAddClick
  cases hsaved : st.saved with
  | other => simp only [Outcome.state]; exact hc
  | arr saved =>
    simp only
    cases hcart : st.cart with
    | other => simp only [Outcome.state]; rw [hcart] at hc; exact hc
    | arr es =>
      simp only
      rw [(write_both_render_state _).1]
      rw [hcart] at hc
      rw [hsaved] at hs
      obtain ⟨l1, l2, h1, _, _⟩ := splice1_decomp saved i
      rw [qtyOk_arr] at hc hs ⊢
      intro x hx
      simp only [List.mem_append, List.mem_singleton] at hx
      rcases hx with hx | hx
      · exact hc x hx
      · apply hs x
        have := firstOf_mem _ x hx.symm
        rw [h1]
        simp only [List.mem_append]
        tauto

theorem savedRemoveClick_cart (st : State) (i : Int) :
    (savedRemoveClick st i).state.cart = st.cart := by
  unfold savedRemoveClick
  cases st.saved <;> rfl

theorem upsellAddClick_qtyOk (st : State) (id : String) (hc : qtyOk st.cart) :
    qtyOk (upsellAddClick st id).state.cart := by
  unfold upsellAddClick
  cases hcart : st.cart with
  | other => simp only [Outcome.state]; exact hc
  | arr es =>
    simp only
    rw [hcart] at hc
    cases hf : findIndexOf id es with
    | error e => simp only [Outcome.state, hcart]; exact hc
    | ok r =>
      cases r with
      | none =>
        simp only
        rw [(write_render_state _).1]
        rw [qtyOk_arr] at hc ⊢
        intro x hx
        simp only [List.mem_append, List.mem_singleton, Option.some.injEq] at hx
        rcases hx with hx | hx
        · exact hc x hx
        · rw [hx]
      | some k =>
        simp only
        rw [(write_render_state _).1]
        rw [qtyOk_arr] at hc ⊢
        intro x hx
        rcases modifyQtyAt_mem _ x es k hx with h | ⟨y, hy, hxy⟩
        · exact hc x h
        · have := hc y hy
          rw [hxy]
          simp only [orNum]
          split_ifs <;> omega

theorem saveCart_storage (old : Stored) (cart : List Entry) :
    loadKey ((saveCart cart).storage old) = .arr cart := by
  unfold saveCart
  split_ifs <;> rfl

theorem addCartClick_qtyOk (products : List Product) (cartKey : Stored) (product : Product)
    (value : Option Int) (hc : qtyOk (loadKey cartKey)) :
    qtyOk (loadKey ((addCartClick products cartKey product value).storage cartKey)) := by
  unfold addCartClick addToCart
  have hq : 1 ≤ max 1 (inputNumber value) := le_max_left _ _
  generalize max 1 (inputNumber value) = q at hq
  simp only [Option.getD]
  cases findProduct products product.id with
  | none => exact hc
  | some p =>
    simp only
    cases hl : loadKey cartKey with
    | other => simp only [AddResult.storage, hl]; rw [hl] at hc; exact hc
    | arr es =>
      simp only
      rw [hl] at hc
      cases hf : findIndexOf product.id es with
      | error e => simp only [AddResult.storage, hl]; exact hc
      | ok r =>
        cases r with
        | none =>
          simp only
          rw [saveCart_storage]
          rw [qtyOk_arr] at hc ⊢
          intro x hx
          simp only [List.mem_append, List.mem_singleton, Option.some.injEq] at hx
          rcases hx with hx | hx
          · exact hc x hx
          · rw [hx]
            simp only [numberOrOne, orNum]
            split_ifs <;> omega
        | some k =>
          simp only
          rw [saveCart_storage]
          rw [qtyOk_arr] at hc ⊢
          intro x hx
          rcases modifyQtyAt_mem _ x es k hx with h | ⟨y, hy, hxy⟩
          · exact hc x h
          · have := hc y hy
            rw [hxy]
            simp only [numberOfOrOne, orNum]
            split_ifs <;> omega

/-- Every handler except the plus button keeps all quantities of the cart at
1 or more, and the plus button does so when its field holds a number that is
not negative (as it does when the row was rendered from a cart whose quantities
are at least 1). -/
theorem quantities_stay_positive (st : State) (hc : qtyOk st.cart) (hs : qtyOk st.saved) :
    (∀ idx value, qtyOk (qtyMinus st idx value).state.cart) ∧
    (∀ idx value, qtyOk (qtyChange st idx value).state.cart) ∧
    (∀ idx value, 0 ≤ inputNumber value → qtyOk (qtyPlus st idx value).state.cart) ∧
    (∀ i, qtyOk (removeClick st i).state.cart) ∧
    (∀ i, qtyOk (saveClick st i).state.cart) ∧
    (∀ i, qtyOk (savedAddClick st i).state.cart) ∧
    (∀ i, qtyOk (savedRemoveClick st i).state.cart) ∧
    (∀ id, qtyOk (upsellAddClick st id).state.cart) ∧
    (∀ products cartKey product value, qtyOk (loadKey cartKey) →
      qtyOk (loadKey ((addCartClick products cartKey product value).storage cartKey))) := by
  refine ⟨?_, ?_, ?_, ?_, ?_, ?_, ?_, ?_, ?_⟩
  · intro idx value
    exact setQty_chain_qtyOk st idx _ hc (le_max_left _ _)
  · intro idx value
    exact setQty_chain_qtyOk st idx _ hc (le_max_left _ _)
  · intro idx value hv
    exact setQty_chain_qtyOk st idx _ hc (by omega)
  · intro i
    exact removeClick_qtyOk st i hc
  · intro i
    exact saveClick_qtyOk st i hc
  · intro i
    exact savedAddClick_qtyOk st i hc hs
  · intro i
    rw [savedRemoveClick_cart]
    exact hc
  · intro id
    exact upsellAddClick_qtyOk st id hc
  · intro products cartKey product value h
    exact addCartClick_qtyOk products cartKey product value h

/-! ## Product ids of the two lists -/

theorem idsOf_append (a b : List Entry) :
    idsOf (.arr (a ++ b)) = idsOf (.arr a) ++ idsOf (.arr b) := by
  simp only [idsOf, itemsOf, List.filterMap_append, List.map_append]

theorem idsOf_single (c : CartItem) : idsOf (.arr [some c]) = [c.productId] := rfl

theorem idsOf_firstOf (r : List Entry) (hr : r.length ≤ 1) :
    idsOf (.arr [firstOf r]) = idsOf (.arr r) := by
  cases r with
  | nil => rfl
  | cons e rest =>
    cases rest with
    | nil => rfl
    | cons e2 rest2 => simp only [List.length_cons] at hr; omega

theorem idsOf_modifyQtyAt (f : Int → Int) :
    ∀ (es : List Entry) (k : Nat), idsOf (.arr (modifyQtyAt f es k)) = idsOf (.arr es) := by
  intro es
  induction es with
  | nil => intro k; rfl
  | cons e rest ih =>
    intro k
    have hcons : ∀ (x : Entry) (l : List Entry),
        idsOf (.arr (x :: l)) = idsOf (.arr [x]) ++ idsOf (.arr l) := fun x l =>
      idsOf_append [x] l
    cases k with
    | zero =>
      simp only [modifyQtyAt]
      rw [hcons _ rest, hcons e rest]
      cases e <;> rfl
    | succ k =>
      simp only [modifyQtyAt]
      rw [hcons e (modifyQtyAt f rest k), hcons e rest, ih k]

theorem idsOf_set (it : CartItem) (v : Int) :
    ∀ (es : List Entry) (i : Nat), es[i]? = some (some it) →
      idsOf (.arr (es.set i (some { it with qty := v }))) = idsOf (.arr es) := by
  intro es
  induction es with
  | nil => intro i h; simp at h
  | cons e rest ih =>
    intro i h
    have hcons : ∀ (x : Entry) (l : List Entry),
        idsOf (.arr (x :: l)) = idsOf (.arr [x]) ++ idsOf (.arr l) := fun x l =>
      idsOf_append [x] l
    cases i with
    | zero =>
      simp only [List.getElem?_cons_zero, Option.some.injEq] at h
      subst h
      simp only [List.set_cons_zero]
      rw [hcons _ rest, hcons (some it) rest]
      rfl
    | succ i =>
      simp only [List.getElem?_cons_succ] at h
      simp only [List.set_cons_succ]
      rw [hcons e (rest.set i _), hcons e rest, ih i h]

theorem noCommonId_symm (a b : JsList) (h : noCommonId a b) : noCommonId b a := by
  intro id hb ha
  exact h id ha hb

theorem noCommonId_other_right (a : JsList) : noCommonId a .other := by
  intro id _ h
  simp [idsOf, itemsOf] at h

theorem noCommonId_other_left (b : JsList) : noCommonId .other b := by
  intro id h
  simp [idsOf, itemsOf] at h

theorem splice1_ids_subset (src : List Entry) (i : Int) :
    ∀ id ∈ idsOf (.arr (splice1 src i).2), id ∈ idsOf (.arr src) := by
  obtain ⟨l1, l2, h1, h2, _⟩ := splice1_decomp src i
  intro id hid
  rw [h2, idsOf_append] at hid
  rw [h1, idsOf_append, idsOf_append]
  simp only [List.mem_append] at hid ⊢
  tauto

/-- Moving the element at `i` from `src` to the end of `dst` keeps the ids of
the two lists apart when `src` holds no id twice. -/
theorem move_apart (src dst : List Entry) (i : Int)
    (h : noCommonId (.arr src) (.arr dst)) (hn : (idsOf (.arr src)).Nodup) :
    noCommonId (.arr (splice1 src i).2) (.arr (dst ++ [firstOf (splice1 src i).1])) := by
  obtain ⟨l1, l2, h1, h2, h3⟩ := splice1_decomp src i
  intro id hid hd
  rw [h2, idsOf_append] at hid
  rw [idsOf_append, idsOf_firstOf _ h3] at hd
  rw [h1, idsOf_append, idsOf_append] at hn
  have hsrc : id ∈ idsOf (.arr src) := by
    rw [h1, idsOf_append, idsOf_append]
    simp only [List.mem_append] at hid ⊢
    tauto
  simp only [List.mem_append] at hid hd
  rcases hd with hd | hd
  · exact h id hsrc hd
  · rw [List.nodup_append] at hn
    obtain ⟨hn1, _, hn3⟩ := hn
    rw [List.nodup_append] at hn1
    obtain ⟨_, _, hn12⟩ := hn1
    rcases hid with hid | hid
    · exact hn12 hid hd
    · exact hn3 (List.mem_append_right _ hd) hid

theorem saveClick_apart (st : State) (i : Int) (h : noCommonId st.cart st.saved)
    (hn : (idsOf st.cart).Nodup) :
    noCommonId (saveClick st i).state.cart (saveClick st i).state.saved := by
  unfold saveClick
  cases hcart : st.cart with
  | other => simp only [Outcome.state]; exact h
  | arr es =>
    simp only
    cases hs : st.saved with
    | other => simp only [Outcome.state]; exact noCommonId_other_right _
    | arr saved =>
      simp only
      rw [(write_both_render_state _).1, (write_both_render_state _).2]
      rw [hcart, hs] at h
      rw [hcart] at hn
      exact move_apart es saved i h hn

theorem savedAddClick_apart (st : State) (i : Int) (h : noCommonId st.cart st.saved)
    (hn : (idsOf st.saved).Nodup) :
    noCommonId (savedAddClick st i).state.cart (savedAddClick st i).state.saved := by
  unfold savedAddClick
  cases hs : st.saved with
  | other => simp only [Outcome.state]; exact h
  | arr saved =>
    simp only
    cases hcart : st.cart with
    | other => simp only [Outcome.state]; exact noCommonId_other_left _
    | arr es =>
      simp only
      rw [(write_both_render_state _).1, (write_both_render_state _).2]
      rw [hcart, hs] at h
      rw [hs] at hn
      exact noCommonId_symm _ _ (move_apart saved es i (noCommonId_symm _ _ h) hn)

theorem savedRemoveClick_apart (st : State) (i : Int) (h : noCommonId st.cart st.saved) :
    noCommonId (savedRemoveClick st i).state.cart (savedRemoveClick st i).state.saved := by
  unfold savedRemoveClick
  cases hs : st.saved with
  | other => simp only [Outcome.state]; exact h
  | arr saved =>
    simp only [Outcome.state, writeSaved]
    rw [hs] at h
    intro id hid hd
    exact h id hid (splice1_ids_subset saved i id hd)

/-- After writing the cart and rendering, the saved list in memory is the one
it was, when memory and storage agreed on it. -/
theorem write_render_saved (st : State) (c : JsList)
    (hsync : st.saved = loadKey st.storedSaved) :
    ((writeCart { st with cart := c }).andThen renderCart).state.cart = c ∧
    ((writeCart { st with cart := c }).andThen renderCart).state.saved = st.saved := by
  refine ⟨(write_render_state _).1, ?_⟩
  rcases (write_render_state { st with cart := c }).2.2.1 with h | h
  · exact h
  · rw [h]
    exact hsync.symm

theorem setQty_chain_apart (st : State) (idx v : Int) (h : noCommonId st.cart st.saved)
    (hsync : st.saved = loadKey st.storedSaved) :
    noCommonId (((setQtyAt st idx v).andThen writeCart).andThen renderCart).state.cart
      (((setQtyAt st idx v).andThen writeCart).andThen renderCart).state.saved := by
  unfold setQtyAt
  cases hcart : st.cart with
  | other => simp only [Outcome.andThen, Outcome.state]; exact h
  | arr es =>
    simp only
    cases he : entryAt es idx with
    | none => simp only [Outcome.andThen, Outcome.state]; exact h
    | some e =>
      cases e with
      | none => simp only [Outcome.andThen, Outcome.state]; exact h
      | some it =>
        change noCommonId ((writeCart _).andThen renderCart).state.cart
          ((writeCart _).andThen renderCart).state.saved
        rw [(write_render_saved st _ hsync).1, (write_render_saved st _ hsync).2]
        rw [hcart] at h
        unfold entryAt at he
        split_ifs at he
        intro id hid
        rw [idsOf_set it v es idx.toNat he] at hid
        exact h id hid

theorem removeClick_apart (st : State) (i : Int) (h : noCommonId st.cart st.saved)
    (hsync : st.saved = loadKey st.storedSaved) :
    noCommonId (removeClick st i).state.cart (removeClick st i).state.saved := by
  unfold removeClick
  cases hcart : st.cart with
  | other => simp only [Outcome.state]; exact h
  | arr es =>
    simp only
    rw [(write_render_saved st _ hsync).1, (write_render_saved st _ hsync).2]
    rw [hcart] at h
    intro id hid
    exact h id (splice1_ids_subset es i id hid)

theorem upsellAddClick_apart (st : State) (id : String) (h : noCommonId st.cart st.saved)
    (hsync : st.saved = loadKey st.storedSaved) (hid : id ∉ idsOf st.saved) :
    noCommonId (upsellAddClick st id).state.cart (upsellAddClick st id).state.saved := by
  unfold upsellAddClick
  cases hcart : st.cart with
  | other => simp only [Outcome.state]; exact h
  | arr es =>
    simp only
    cases hf : findIndexOf id es with
    | error e => simp only [Outcome.state]; exact h
    | ok r =>
      rw [hcart] at h
      cases r with
      | none =>
        simp only
        rw [(write_render_saved st _ hsync).1, (write_render_saved st _ hsync).2]
        intro x hx
        rw [idsOf_append] at hx
        simp only [List.mem_append] at hx
        rcases hx with hx | hx
        · exact h x hx
        · rw [idsOf_single, List.mem_singleton] at hx
          rw [hx]
          exact hid
      | some k =>
        simp only
        rw [(write_render_saved st _ hsync).1, (write_render_saved st _ hsync).2]
        intro x hx
        rw [idsOf_modifyQtyAt] at hx
        exact h x hx

/-- C17 on the code: the plus button of a cart row sets no lower bound on the
quantity. With two units of product 1 in the cart and the quantity field of the
row holding −5, a click on plus puts the quantity −4 into the cart and into the
storage, though every quantity was at least 1 before; the minus button and the
change handler, given the same field, leave the quantity 1. -/
theorem qtyPlus_below_one :
    qtyOk (stateHolding sampleItems []).cart ∧ qtyOk (stateHolding sampleItems []).saved ∧
    (qtyPlus (stateHolding sampleItems []) 0 (some (-5))).state.cart
      = .arr [some { productId := "1", qty := -4 }] ∧
    (qtyPlus (stateHolding sampleItems []) 0 (some (-5))).state.storedCart
      = .json (.arr [some { productId := "1", qty := -4 }]) ∧
    ¬ qtyOk (qtyPlus (stateHolding sampleItems []) 0 (some (-5))).state.cart ∧
    (qtyMinus (stateHolding sampleItems []) 0 (some (-5))).state.cart
      = .arr [some { productId := "1", qty := 1 }] ∧
    (qtyChange (stateHolding sampleItems []) 0 (some (-5))).state.cart
      = .arr [some { productId := "1", qty := 1 }] := by
  decide

/-! ## The two lists stay apart -/

/-- C18 as stated fails for the upsell grid and for a cart with two rows of
one product. With product 1 saved and the cart empty, the grid offers product 1
(it leaves out cart members only) and its button puts product 1 into the cart,
so it is in both lists. With product 1 in two rows of the cart and nothing
saved, saving row 0 leaves product 1 in both lists. -/
theorem upsell_add_of_saved_product :
    noCommonId (stateHolding [] sampleItems).cart (stateHolding [] sampleItems).saved ∧
    (∃ shown : List Product, renderUpsell sampleProducts sampleProducts [] zeroRand = .ok shown ∧
      ({ id := "1", title := "A", price := some 500 } : Product) ∈ shown) ∧
    ¬ noCommonId (upsellAddClick (stateHolding [] sampleItems) "1").state.cart
        (upsellAddClick (stateHolding [] sampleItems) "1").state.saved ∧
    noCommonId (stateHolding [{ productId := "1", qty := 1 }, { productId := "1", qty := 1 }] []).cart
      (stateHolding [{ productId := "1", qty := 1 }, { productId := "1", qty := 1 }] []).saved ∧
    ¬ noCommonId
        (saveClick (stateHolding [{ productId := "1", qty := 1 }, { productId := "1", qty := 1 }] [])
          0).state.cart
        (saveClick (stateHolding [{ productId := "1", qty := 1 }, { productId := "1", qty := 1 }] [])
          0).state.saved := by
  refine ⟨by decide, ⟨_, rfl, by decide⟩, by decide, by decide, by decide⟩

/-- C18, amended: from a state in which no product id is in both lists, the
save button keeps it so when the cart holds no id twice, the add-to-cart button
of the saved list when the saved list holds no id twice, and the remove button
of the saved list always. When the saved list in memory is the stored one, the
remove button of the cart and the three quantity handlers keep it so, and the
upsell button does for a product that is not in the saved list. -/
theorem lists_stay_apart (st : State) (h : noCommonId st.cart st.saved) :
    (∀ i, (idsOf st.cart).Nodup →
      noCommonId (saveClick st i).state.cart (saveClick st i).state.saved) ∧
    (∀ i, (idsOf st.saved).Nodup →
      noCommonId (savedAddClick st i).state.cart (savedAddClick st i).state.saved) ∧
    (∀ i, noCommonId (savedRemoveClick st i).state.cart (savedRemoveClick st i).state.saved) ∧
    (st.saved = loadKey st.storedSaved →
      (∀ i, noCommonId (removeClick st i).state.cart (removeClick st i).state.saved) ∧
      (∀ idx value,
        noCommonId (qtyChange st idx value).state.cart (qtyChange st idx value).state.saved) ∧
      (∀ idx value,
        noCommonId (qtyMinus st idx value).state.cart (qtyMinus st idx value).state.saved) ∧
      (∀ idx value,
        noCommonId (qtyPlus st idx value).state.cart (qtyPlus st idx value).state.saved) ∧
      (∀ id, id ∉ idsOf st.saved →
        noCommonId (upsellAddClick st id).state.cart (upsellAddClick st id).state.saved)) := by
  refine ⟨?_, ?_, ?_, ?_⟩
  · intro i hn
    exact saveClick_apart st i h hn
  · intro i hn
    exact savedAddClick_apart st i h hn
  · intro i
    exact savedRemoveClick_apart st i h
  · intro hsync
    refine ⟨?_, ?_, ?_, ?_, ?_⟩
    · intro i
      exact removeClick_apart st i h hsync
    · intro idx value
      exact setQty_chain_apart st idx _ h hsync
    · intro idx value
      exact setQty_chain_apart st idx _ h hsync
    · intro idx value
      exact setQty_chain_apart st idx _ h hsync
    · intro id hid
      exact upsellAddClick_apart st id h hsync hid

theorem lists_stay_apart_witness :
    noCommonId (stateHolding sampleItems []).cart (stateHolding sampleItems []).saved ∧
    (saveClick (stateHolding sampleItems []) 0).state.saved = .arr (sampleItems.map some) ∧
    noCommonId (saveClick (stateHolding sampleItems []) 0).state.cart
      (saveClick (stateHolding sampleItems []) 0).state.saved :=
  ⟨by decide, by decide,
    (lists_stay_apart (stateHolding sampleItems []) (by decide)).1 0 (by decide)⟩

/-! ## Random indices -/

theorem roundSig53_dvd (n : Nat) : 2 ^ (floorLog2 n - 52) ∣ roundSig53 n ∨ n < 2 ^ 53 := by
  by_cases h : n < 2 ^ 53
  · exact Or.inr h
  · left
    unfold roundSig53
    simp only [h, if_false]
    split_ifs <;> exact Dvd.intro_left _ rfl

theorem roundSig53_le_add_half (n : Nat) (h : 2 ^ 53 ≤ n) :
    roundSig53 n ≤ n + 2 ^ (floorLog2 n - 53) := by
  have hl : 53 ≤ floorLog2 n := floorLog2_ge n 53 h
  unfold roundSig53
  have hn : ¬ n < 2 ^ 53 := by omega
  simp only [hn, if_false]
  obtain ⟨t, ht⟩ : ∃ t, floorLog2 n = t + 53 := ⟨floorLog2 n - 53, by omega⟩
  rw [ht]
  have e1 : t + 53 - 52 = t + 1 := by omega
  have e2 : t + 53 - 53 = t := by omega
  have e3 : t + 1 - 1 = t := by omega
  rw [e1, e2, e3]
  have hp : (2:Nat) ^ (t + 1) = 2 * 2 ^ t := by rw [pow_succ]; ring
  rw [hp]
  have hdm := Nat.div_add_mod n (2 * 2 ^ t)
  have hpos : 0 < 2 ^ t := by positivity
  generalize n / (2 * 2 ^ t) = q at *
  generalize n % (2 * 2 ^ t) = r at *
  generalize (2:Nat) ^ t = H at *
  have hq : (q + 1) * (2 * H) = 2 * H * q + 2 * H := by ring
  have hq0 : q * (2 * H) = 2 * H * q := by ring
  split_ifs <;> omega

/-- A double below 1 is at most `1 - 2^-53`. -/
theorem draw_bound (n s : Nat) (hlt : n < 2 ^ s) (hd : roundSig53 n = n) :
    n * 2 ^ 53 + 2 ^ s ≤ 2 ^ 53 * 2 ^ s := by
  have key : ∀ a W : Nat, a < 2 ^ 53 → a < W → a * 2 ^ 53 + W ≤ 2 ^ 53 * W := by
    intro a W ha hW
    norm_num at ha ⊢
    by_cases hc : 9007199254740992 ≤ W
    · omega
    · omega
  by_cases h : n < 2 ^ 53
  · exact key n (2 ^ s) h hlt
  · have hn : 2 ^ 53 ≤ n := by omega
    have hl : 53 ≤ floorLog2 n := floorLog2_ge n 53 hn
    have hpos : 0 < n := by omega
    obtain ⟨hlo, hhi⟩ := floorLog2_spec n hpos
    have hls : floorLog2 n < s := floorLog2_lt n s hpos hlt
    obtain ⟨t, ht⟩ : ∃ t, floorLog2 n = t + 52 := ⟨floorLog2 n - 52, by omega⟩
    rcases roundSig53_dvd n with hdv | hdv
    · rw [hd, ht] at hdv
      simp only [Nat.add_sub_cancel] at hdv
      obtain ⟨a, ha⟩ := hdv
      obtain ⟨w, hw⟩ : ∃ w, s = t + w := ⟨s - t, by omega⟩
      have hs : (2:Nat) ^ s = 2 ^ t * 2 ^ w := by rw [hw, pow_add]
      have hpt : 0 < 2 ^ t := by positivity
      have ha53 : a < 2 ^ 53 := by
        rw [ht, ha] at hhi
        have : (2:Nat) ^ (t + 52 + 1) = 2 ^ t * 2 ^ 53 := by
          rw [show t + 52 + 1 = t + 53 by omega, pow_add]
        rw [this] at hhi
        exact Nat.lt_of_mul_lt_mul_left hhi
      have haw : a < 2 ^ w := by
        rw [ha, hs] at hlt
        exact Nat.lt_of_mul_lt_mul_left hlt
      have hk := key a (2 ^ w) ha53 haw
      rw [ha, hs]
      calc 2 ^ t * a * 2 ^ 53 + 2 ^ t * 2 ^ w = 2 ^ t * (a * 2 ^ 53 + 2 ^ w) := by ring
        _ ≤ 2 ^ t * (2 ^ 53 * 2 ^ w) := Nat.mul_le_mul_left _ hk
        _ = 2 ^ 53 * (2 ^ t * 2 ^ w) := by ring
    · omega

theorem roundSig53_mul_lt (m n s : Nat) (hm : 0 < m) (hlt : n < 2 ^ s)
    (hd : roundSig53 n = n) : roundSig53 (m * n) < m * 2 ^ s := by
  have hN : m * n < m * 2 ^ s := Nat.mul_lt_mul_of_pos_left hlt hm
  by_cases h : m * n < 2 ^ 53
  · unfold roundSig53
    simp only [h, if_true]
    exact hN
  · have hge : 2 ^ 53 ≤ m * n := by omega
    have hl : 53 ≤ floorLog2 (m * n) := floorLog2_ge _ 53 hge
    have hpos : 0 < m * n := by omega
    have hlo := (floorLog2_spec (m * n) hpos).1
    have hR := roundSig53_le_add_half (m * n) hge
    have hb := draw_bound n s hlt hd
    obtain ⟨t, ht⟩ : ∃ t, floorLog2 (m * n) = t + 53 := ⟨floorLog2 (m * n) - 53, by omega⟩
    rw [ht] at hR hlo
    simp only [Nat.add_sub_cancel] at hR
    have hpw : (2:Nat) ^ (t + 53) = 2 ^ t * 2 ^ 53 := by rw [pow_add]
    rw [hpw] at hlo
    have hb2 : m * (n * 2 ^ 53 + 2 ^ s) ≤ m * (2 ^ 53 * 2 ^ s) := Nat.mul_le_mul_left _ hb
    have h3 : (m * n + 2 ^ t) * 2 ^ 53 < (m * 2 ^ s) * 2 ^ 53 := by
      calc (m * n + 2 ^ t) * 2 ^ 53 = m * n * 2 ^ 53 + 2 ^ t * 2 ^ 53 := by ring
        _ ≤ m * n * 2 ^ 53 + m * n := Nat.add_le_add_left hlo _
        _ < m * n * 2 ^ 53 + m * 2 ^ s := Nat.add_lt_add_left hN _
        _ = m * (n * 2 ^ 53 + 2 ^ s) := by ring
        _ ≤ m * (2 ^ 53 * 2 ^ s) := hb2
        _ = (m * 2 ^ s) * 2 ^ 53 := by ring
    have h4 := Nat.lt_of_mul_lt_mul_right h3
    omega

/-- `Math.floor(Math.random() * m)` is one of `0 … m - 1`. -/
theorem randomIndex_lt (r : Dyadic) (m : Nat) (hr : isRandomDraw r) (hm : 0 < m) :
    randomIndex r m < m := by
  obtain ⟨h0, h1, h2⟩ := hr
  obtain ⟨n, hn⟩ := Int.eq_ofNat_of_zero_le h0
  unfold randomIndex mathFloor mulDouble
  rw [hn] at h1 h2 ⊢
  simp only [Int.toNat_ofNat, Int.natAbs_ofNat] at h2 ⊢
  have hlt : n < 2 ^ r.scale := by exact_mod_cast h1
  have hR := roundSig53_mul_lt m n r.scale hm hlt h2
  have hnn : (0 : Int) ≤ Int.sign (m : Int) * Int.sign (n : Int) * (roundSig53 (m * n) : Nat) := by
    rcases Nat.eq_zero_or_pos n with hz | hp
    · subst hz; simp
    · rw [Int.sign_eq_one_of_pos (by exact_mod_cast hm),
        Int.sign_eq_one_of_pos (by exact_mod_cast hp)]
      simp
  have hle : Int.sign (m : Int) * Int.sign (n : Int) * (roundSig53 (m * n) : Nat)
      ≤ (roundSig53 (m * n) : Nat) := by
    rcases Nat.eq_zero_or_pos n with hz | hp
    · subst hz; simp
    · rw [Int.sign_eq_one_of_pos (by exact_mod_cast hm),
        Int.sign_eq_one_of_pos (by exact_mod_cast hp)]
      simp
  generalize Int.sign (m : Int) * Int.sign (n : Int) * (roundSig53 (m * n) : Nat) = x at hnn hle
  have hx : x < (m : Int) * 2 ^ r.scale := by
    have : ((roundSig53 (m * n) : Nat) : Int) < (m : Int) * 2 ^ r.scale := by exact_mod_cast hR
    omega
  have hp2 : (0 : Int) < 2 ^ r.scale := by positivity
  have hdiv : x / 2 ^ r.scale < (m : Int) := Int.ediv_lt_of_lt_mul hp2 hx
  have hdn : 0 ≤ x / 2 ^ r.scale := Int.ediv_nonneg hnn (le_of_lt hp2)
  omega

/-! ## The shuffle -/

theorem shuffleFrom_swaps {α : Type} (rand : Nat → Dyadic) :
    ∀ (i k : Nat) (a : List α),
      shuffleFrom rand i k a = (shuffleSwaps rand i k).foldl (fun b p => swap b p.1 p.2) a := by
  intro i
  induction i with
  | zero => intro k a; rfl
  | succ i ih =>
    intro k a
    simp only [shuffleFrom, shuffleSwaps, List.foldl_cons]
    exact ih (k + 1) _

theorem shuffleSwaps_bounds (rand : Nat → Dyadic) (hr : ∀ k, isRandomDraw (rand k)) :
    ∀ (i k : Nat), ∀ p ∈ shuffleSwaps rand i k, p.2 ≤ p.1 ∧ 0 < p.1 ∧ p.1 ≤ i := by
  intro i
  induction i with
  | zero => intro k p hp; simp [shuffleSwaps] at hp
  | succ i ih =>
    intro k p hp
    simp only [shuffleSwaps, List.mem_cons] at hp
    rcases hp with hp | hp
    · subst hp
      have := randomIndex_lt (rand k) (i + 2) (hr k) (by omega)
      simp only
      omega
    · have := ih (k + 1) p hp
      omega

theorem set_getD_self {α : Type} (heap : Heap α) (a : Nat) :
    heap.set a (heap.getD a []) = heap := by
  apply List.ext_getElem?
  intro n
  by_cases h : a = n
  · subst h
    by_cases hl : a < heap.length
    · rw [List.getElem?_set_self hl, List.getD_eq_getElem?_getD, List.getElem?_eq_getElem hl]
      rfl
    · rw [List.getElem?_eq_none (by rw [List.length_set]; omega),
        List.getElem?_eq_none (by omega)]
  · rw [List.getElem?_set_ne h]

theorem shuffleLoopAt_eq {α : Type} (rand : Nat → Dyadic) (a : Nat) :
    ∀ (i k : Nat) (heap : Heap α), a < heap.length →
      shuffleLoopAt rand a i k heap = heap.set a (shuffleFrom rand i k (heap.getD a [])) := by
  intro i
  induction i with
  | zero =>
    intro k heap _
    simp only [shuffleLoopAt, shuffleFrom]
    exact (set_getD_self heap a).symm
  | succ i ih =>
    intro k heap ha
    simp only [shuffleLoopAt, shuffleFrom]
    rw [ih (k + 1) _ (by rw [List.length_set]; exact ha), List.set_set]
    congr 2
    rw [List.getD_eq_getElem?_getD, List.getElem?_set_self ha]
    rfl

theorem set_last {α : Type} (x y : α) :
    ∀ heap : List α, (heap ++ [x]).set heap.length y = heap ++ [y] := by
  intro heap
  induction heap with
  | nil => rfl
  | cons h rest ih => simp only [List.cons_append, List.length_cons, List.set_cons_succ, ih]

theorem shuffleAt_eq {α : Type} (rand : Nat → Dyadic) (heap : Heap α) (arr : Option Nat) :
    shuffleAt rand heap arr = (heap ++ [shuffle rand (arr.bind (fun r => heap[r]?))], heap.length) := by
  unfold shuffleAt
  simp only
  rw [shuffleLoopAt_eq rand heap.length _ 0 _ (by simp)]
  congr 1
  rw [List.getD_eq_getElem?_getD, List.getElem?_append_right (le_refl _)]
  simp only [Nat.sub_self, List.getElem?_cons_zero, Option.getD_some, set_last]
  cases arr.bind (fun r => heap[r]?) <;> rfl

theorem swap_length {α : Type} (a : List α) (i j : Nat) : (swap a i j).length = a.length :=
  (swap_perm a i j).length_eq

/-- C22: for random draws in `[0, 1)`, `shuffle` of an array returns a
permutation of it of the same length; it is the result of the swaps `(i, j)` the
loop computes, each with `j ≤ i < length`, and `Math.floor(Math.random() * (i + 1))`
is at most `i` for every draw; an argument that is not an array gives the empty
array. In memory the result is a new array at a fresh address, and the argument
and every other array are as they were. The function is total: the loop ends
after `length - 1` steps. -/
theorem shuffle_correct {α : Type} (rand : Nat → Dyadic) (hr : ∀ k, isRandomDraw (rand k))
    (a : List α) :
    (shuffle rand (some a)).Perm a ∧
    (shuffle rand (some a)).length = a.length ∧
    shuffle rand (some a) =
      (shuffleSwaps rand (a.length - 1) 0).foldl (fun b p => swap b p.1 p.2) a ∧
    (∀ p ∈ shuffleSwaps rand (a.length - 1) 0, p.2 ≤ p.1 ∧ p.1 < a.length) ∧
    (∀ k i : Nat, randomIndex (rand k) (i + 1) ≤ i) ∧
    shuffle rand (none : Option (List α)) = [] ∧
    (∀ (heap : Heap α) (r : Nat), heap[r]? = some a →
      shuffleAt rand heap (some r) = (heap ++ [shuffle rand (some a)], heap.length) ∧
      (shuffleAt rand heap (some r)).1[r]? = some a ∧
      (shuffleAt rand heap (some r)).2 ≠ r ∧
      (∀ q : Nat, q < heap.length → (shuffleAt rand heap (some r)).1[q]? = heap[q]?)) ∧
    (∀ heap : Heap α, shuffleAt rand heap none = (heap ++ [[]], heap.length)) := by
  refine ⟨shuffle_perm rand a, (shuffle_perm rand a).length_eq, shuffleFrom_swaps rand _ 0 a,
    ?_, ?_, rfl, ?_, ?_⟩
  · intro p hp
    have h := shuffleSwaps_bounds rand hr _ 0 p hp
    omega
  · intro k i
    have := randomIndex_lt (rand k) (i + 1) (hr k) (by omega)
    omega
  · intro heap r hra
    have hlt : r < heap.length := by
      by_contra hc
      rw [List.getElem?_eq_none (by omega)] at hra
      cases hra
    have heq : shuffleAt rand heap (some r) = (heap ++ [shuffle rand (some a)], heap.length) := by
      rw [shuffleAt_eq]
      simp only [Option.bind, hra]
    refine ⟨heq, ?_, ?_, ?_⟩
    · rw [heq]
      simp only
      rw [List.getElem?_append_left hlt, hra]
    · rw [heq]
      simp only
      omega
    · intro q hq
      rw [heq]
      simp only
      rw [List.getElem?_append_left hq]
  · intro heap
    rw [shuffleAt_eq]
    rfl

theorem shuffle_correct_witness :
    shuffle halfRand (some [1, 2, 3]) = [1, 3, 2] ∧
      (shuffle halfRand (some [1, 2, 3])).Perm [1, 2, 3] := by
  have hd : isRandomDraw ({ num := 1, scale := 1 } : Dyadic) := by decide
  exact ⟨by decide, (shuffle_correct halfRand (fun _ => hd) [1, 2, 3]).1⟩

/-! ## Bounds of the discount and the total -/

theorem roundSig53_le_double (n : Nat) : roundSig53 n ≤ 2 * n := by
  by_cases h : n < 2 ^ 53
  · unfold roundSig53
    simp only [h, if_true]
    omega
  · have hge : 2 ^ 53 ≤ n := by omega
    have h1 := roundSig53_le_add_half n hge
    have h2 := (floorLog2_spec n (by omega)).1
    have h3 : 2 ^ (floorLog2 n - 53) ≤ 2 ^ floorLog2 n :=
      Nat.pow_le_pow_right (by norm_num) (by omega)
    omega

theorem percentDiscount_ten_le (S : Nat) :
    0 ≤ percentDiscount (S : Int) 10 ∧ percentDiscount (S : Int) 10 ≤ (S : Int) := by
  unfold percentDiscount
  have hm := mathRound_mulDouble S 7205759403792794 56 (by norm_num)
  simp only [Nat.cast_ofNat] at hm
  rw [divDouble_10_100, hm]
  refine ⟨Int.ofNat_nonneg _, ?_⟩
  have h := roundSig53_le_double (S * 7205759403792794)
  have hd : (2 * roundSig53 (S * 7205759403792794) + 2 ^ 56) / 2 ^ (56 + 1) ≤ S := by
    have hlt : 2 * roundSig53 (S * 7205759403792794) + 2 ^ 56 < (S + 1) * 2 ^ (56 + 1) := by
      norm_num
      omega
    have := (Nat.div_lt_iff_lt_mul (by positivity)).mpr hlt
    omega
  exact_mod_cast hd

theorem priceOf_nonneg (products : List Product)
    (hprice : ∀ p ∈ products, 0 ≤ p.price.getD 0) (pid : String) :
    0 ≤ priceOf products pid := by
  rw [priceOf_eq]
  cases hf : products.find? (fun p => p.id == pid) with
  | none => exact le_refl _
  | some p => exact hprice p (List.mem_of_find?_eq_some hf)

/-- C23: for a stored cart of items with quantities that are not negative, over a
catalog whose prices are not negative, and with no promo, the 10 percent promo
of `TONGA10` or the free shipping of `FREEDEL` applied, `renderCart` shows a
subtotal that is not negative, a discount between 0 and the subtotal, and a
total that is not negative. -/
theorem totals_within_bounds (st : State) (items : List CartItem)
    (hcart : loadKey st.storedCart = .arr (items.map some))
    (hprice : ∀ p ∈ st.products, 0 ≤ p.price.getD 0)
    (hqty : ∀ it ∈ items, 0 ≤ it.qty)
    (hpromo : st.promo = none ∨ st.promo = PROMOS "TONGA10" ∨ st.promo = PROMOS "FREEDEL") :
    ∃ t : Totals, renderCart st = .done { readCart st with shown := some t } ∧
      0 ≤ t.subtotal ∧ 0 ≤ t.discount ∧ t.discount ≤ t.subtotal ∧ 0 ≤ t.total := by
  refine ⟨_, renderCart_items st items hcart, ?_⟩
  have hsub : 0 ≤ (items.map (fun it => priceOf st.products it.productId * it.qty)).sum := by
    apply List.sum_nonneg
    intro x hx
    obtain ⟨it, hit, rfl⟩ := List.mem_map.mp hx
    exact Int.mul_nonneg (priceOf_nonneg st.products hprice _) (hqty it hit)
  obtain ⟨S, hS⟩ := Int.eq_ofNat_of_zero_le hsub
  rw [hS]
  have hten := percentDiscount_ten_le S
  rcases hpromo with h | h | h
  · rw [h]
    simp only [computeTotals, SHIPPING_FEE]
    omega
  · rw [h, show PROMOS "TONGA10" = some ⟨.percent, 10⟩ by decide]
    simp only [computeTotals, SHIPPING_FEE, if_true]
    refine ⟨Int.ofNat_nonneg _, hten.1, hten.2, ?_⟩
    simp only [show ¬ (PromoType.percent = PromoType.shipping) by decide, if_false]
    omega
  · rw [h, show PROMOS "FREEDEL" = some ⟨.shipping, 1⟩ by decide]
    simp only [computeTotals, show ¬ (PromoType.shipping = PromoType.percent) by decide,
      if_false, if_true]
    omega

theorem totals_within_bounds_witness :
    ∃ t : Totals,
      renderCart (stateWith tenThousandItems (PROMOS "TONGA10")) =
        .done { readCart (stateWith tenThousandItems (PROMOS "TONGA10")) with shown := some t } ∧
      0 ≤ t.subtotal ∧ 0 ≤ t.discount ∧ t.discount ≤ t.subtotal ∧ 0 ≤ t.total :=
  totals_within_bounds (stateWith tenThousandItems (PROMOS "TONGA10")) tenThousandItems
    (by decide) (by decide) (by decide) (by decide)

theorem toUpper_cases (c : Char) :
    (Char.toUpper c = c ∧ ¬ (97 ≤ c.toNat ∧ c.toNat ≤ 122)) ∨
    (97 ≤ c.toNat ∧ c.toNat ≤ 122 ∧ (Char.toUpper c).toNat + 32 = c.toNat) := by
  by_cases h : 97 ≤ c.toNat ∧ c.toNat ≤ 122
  · right
    refine ⟨h.1, h.2, ?_⟩
    have hc : c = Char.ofNat c.toNat := (Char.ofNat_toNat c).symm
    obtain ⟨h1, h2⟩ := h
    generalize c.toNat = n at hc h1 h2
    subst hc
    interval_cases n <;> decide
  · left
    refine ⟨?_, h⟩
    unfold Char.toUpper
    simp only [ge_iff_le]
    rw [if_neg h]

theorem isJsSpace_toUpper (c : Char) : isJsSpace (Char.toUpper c) = isJsSpace c := by
  rcases toUpper_cases c with ⟨h, _⟩ | ⟨h1, h2, h3⟩
  · rw [h]
  · have e1 : isJsSpace c = false := by
      unfold isJsSpace
      simp only [Bool.or_eq_false_iff, decide_eq_false_iff_not, Bool.and_eq_false_iff]
      omega
    have e2 : isJsSpace (Char.toUpper c) = false := by
      unfold isJsSpace
      simp only [Bool.or_eq_false_iff, decide_eq_false_iff_not, Bool.and_eq_false_iff]
      omega
    rw [e1, e2]

theorem toUpper_toUpper (c : Char) : Char.toUpper (Char.toUpper c) = Char.toUpper c := by
  rcases toUpper_cases c with ⟨h, _⟩ | ⟨h1, h2, h3⟩
  · rw [h, h]
  · rcases toUpper_cases (Char.toUpper c) with ⟨h, _⟩ | ⟨k1, k2, _⟩
    · exact h
    · omega

theorem dropWhile_map_toUpper (cs : List Char) :
    (cs.map Char.toUpper).dropWhile isJsSpace = (cs.dropWhile isJsSpace).map Char.toUpper := by
  induction cs with
  | nil => rfl
  | cons c rest ih =>
    simp only [List.map_cons, List.dropWhile_cons, isJsSpace_toUpper]
    cases isJsSpace c
    · simp only [Bool.false_eq_true, if_false, List.map_cons]
    · simp only [if_true, ih]

theorem jsTrim_map_toUpper (cs : List Char) :
    jsTrim (cs.map Char.toUpper) = (jsTrim cs).map Char.toUpper := by
  unfold jsTrim
  rw [dropWhile_map_toUpper, ← List.map_reverse, dropWhile_map_toUpper, List.map_reverse]

theorem normalizeCode_toUpperCase (input : String) :
    normalizeCode (toUpperCase input) = normalizeCode input := by
  unfold normalizeCode toUpperCase
  simp only [jsTrim_map_toUpper, List.map_map]
  congr 1
  apply List.map_congr_left
  intro c _
  exact toUpper_toUpper c

/-- C21: the promo click gives the same outcome for an input and for that input
in upper case, in every state; `tonga10`, `Tonga10` and `TONGA10` all apply the
10 percent promo and `freedel` applies free shipping, each followed by a
render of the cart. -/
theorem promo_lookup_ignores_case (st : State) (input : String) :
    applyPromoClick st input = applyPromoClick st (toUpperCase input) ∧
    normalizeCode input = normalizeCode (toUpperCase input) ∧
    applyPromoClick st "tonga10" =
      renderCart { st with promo := some ⟨.percent, 10⟩, promoMsg := "Code appliqué." } ∧
    applyPromoClick st "Tonga10" = applyPromoClick st "tonga10" ∧
    applyPromoClick st "TONGA10" = applyPromoClick st "tonga10" ∧
    applyPromoClick st "freedel" =
      renderCart { st with promo := some ⟨.shipping, 1⟩, promoMsg := "Code appliqué." } ∧
    applyPromoClick st "FREEDEL" = applyPromoClick st "freedel" := by
  have h10 : ∀ s : String, normalizeCode s = "TONGA10" → applyPromoClick st s =
      renderCart { st with promo := some ⟨.percent, 10⟩, promoMsg := "Code appliqué." } := by
    intro s hs
    exact applyPromoClick_known st s ⟨.percent, 10⟩ (by rw [hs]; decide) (by rw [hs]; decide)
  have hfree : ∀ s : String, normalizeCode s = "FREEDEL" → applyPromoClick st s =
      renderCart { st with promo := some ⟨.shipping, 1⟩, promoMsg := "Code appliqué." } := by
    intro s hs
    exact applyPromoClick_known st s ⟨.shipping, 1⟩ (by rw [hs]; decide) (by rw [hs]; decide)
  refine ⟨?_, (normalizeCode_toUpperCase input).symm, h10 _ (by decide), ?_, ?_,
    hfree _ (by decide), ?_⟩
  · unfold applyPromoClick
    rw [normalizeCode_toUpperCase]
  · rw [h10 "Tonga10" (by decide), h10 "tonga10" (by decide)]
  · rw [h10 "TONGA10" (by decide), h10 "tonga10" (by decide)]
  · rw [hfree "FREEDEL" (by decide), hfree "freedel" (by decide)]

end TongaMarket
